import Mathlib

/-!
# Shallow embedding of the Web-Data-Scraping-Assistant extraction core

This file embeds, in Lean 4, the parts of the repository's Python backend
that the verified properties talk about:

* `backend/app/core/errors.py` — the error taxonomy (`FetchError`, `ParseError`);
* `backend/app/services/url_safety.py` — the SSRF guard;
* `backend/app/services/http_client.py` — the GET/POST fetch layer with retries;
* `backend/app/services/pagination.py` — the three-variant pagination engine;
* `backend/app/services/json_extract.py` — the bounded BFS record search;
* `backend/app/services/field_filter.py` — fuzzy field matching;
* `backend/app/services/html_extract.py` — selector/table record extraction;
* `backend/app/api/analyze.py` — the batch identifier injector.

Modelling conventions:

* Python `dict` values become association lists `List (String × α)` with
  Python's insertion-order semantics: assignment updates an existing key in
  place (keeping its position) or appends a fresh key at the end.
* Python `int` becomes `Int`; byte strings become `List Nat`.
* External collaborators (the `requests` library, `socket.getaddrinfo`,
  BeautifulSoup parsing/CSS selection, `urllib.parse.urlparse`) are inputs:
  the embedded functions take their results as parameters, and the embedded
  logic starts where the repository's own code starts.
* Exceptions become `Except PyErr`; Python functions that cannot raise are
  total Lean functions.
-/

set_option autoImplicit false

namespace Wdsp

/-! ## Python dictionaries as insertion-ordered association lists -/

/-- Scalar values stored in the request-parameter / record dictionaries the
pagination engine and extractors manipulate (string, int, bool, None). -/
inductive PyVal where
  | vNull
  | vBool (b : Bool)
  | vInt (n : Int)
  | vStr (s : String)
  deriving DecidableEq, Repr

/-- `d[k]`: first binding of `k` (keys are unique in dictionaries built by
the embedded code, so "first" is "the" binding). -/
def dictGet {α : Type} : List (String × α) → String → Option α
  | [], _ => none
  | (k', v) :: rest, k => if k' = k then some v else dictGet rest k

/-- `d[k] = v`: update the existing binding of `k` in place (Python keeps the
key's insertion position), else append the new binding at the end. -/
def dictSet {α : Type} : List (String × α) → String → α → List (String × α)
  | [], k, v => [(k, v)]
  | (k', v') :: rest, k, v =>
    if k' = k then (k, v) :: rest else (k', v') :: dictSet rest k v

/-- `d.pop(k, None)`: drop the binding of `k`, if any. -/
def dictPop {α : Type} : List (String × α) → String → List (String × α)
  | [], _ => []
  | (k', v') :: rest, k => if k' = k then rest else (k', v') :: dictPop rest k

/-- `k in d`. -/
def dictContains {α : Type} (d : List (String × α)) (k : String) : Bool :=
  (dictGet d k).isSome

/-! ## Python string methods

The embedded code uses a handful of `str` methods. They are embedded
explicitly over character lists (Lean's built-in `String.splitOn`,
`String.trim`, comparison, … are iterator-based and serve the same purpose,
but the explicit versions mirror Python's semantics directly: code-point
comparison, whitespace stripping, left-to-right non-overlapping splitting
and replacement). -/

/-- Code-point lexicographic comparison, as Python compares strings. -/
def lexLe : List Char → List Char → Bool
  | [], _ => true
  | _ :: _, [] => false
  | a :: as, b :: bs =>
    if a.toNat < b.toNat then true
    else if b.toNat < a.toNat then false
    else lexLe as bs

def strLe (a b : String) : Bool := lexLe a.toList b.toList

/-- Python `sorted` on strings: stable, code-point lexicographic (insertion
sort; stability is irrelevant here because inputs are deduplicated). -/
def insertSorted (x : String) : List String → List String
  | [] => [x]
  | y :: ys => if strLe x y then x :: y :: ys else y :: insertSorted x ys

def pySorted : List String → List String
  | [] => []
  | x :: xs => insertSorted x (pySorted xs)

/-- First-occurrence deduplication (the effect of iterating a Python
`set` built from a list, once the result is sorted the order of this
dedup is irrelevant). -/
def dedupAux (seen : List String) : List String → List String
  | [] => []
  | x :: xs => if x ∈ seen then dedupAux seen xs else x :: dedupAux (x :: seen) xs

def dedupFirst (xs : List String) : List String := dedupAux [] xs

/-- Python `str.strip()`: drop whitespace from both ends. -/
def pyStrip (s : String) : String :=
  String.mk (((s.toList.dropWhile Char.isWhitespace).reverse.dropWhile
    Char.isWhitespace).reverse)

/-- Python `str.startswith`. -/
def pyStartsWith (s pre : String) : Bool := pre.toList.isPrefixOf s.toList

/-- Python `str.split(sep)` for a non-empty separator: split at every
non-overlapping occurrence, keeping empty pieces. One fuel unit per
consumed character suffices. -/
def splitOnFuel (sep : List Char) : Nat → List Char → List Char → List (List Char)
  | 0, cs, acc => [acc.reverse ++ cs]
  | fuel + 1, cs, acc =>
    match cs with
    | [] => [acc.reverse]
    | c :: rest =>
      if !sep.isEmpty && sep.isPrefixOf cs then
        acc.reverse :: splitOnFuel sep fuel (cs.drop sep.length) []
      else
        splitOnFuel sep fuel rest (c :: acc)

def pySplitOn (s sep : String) : List String :=
  (splitOnFuel sep.toList (s.length + 1) s.toList []).map String.mk

/-- Digits to a number (`int(s)` on an all-digit string). -/
def digitsToNat (cs : List Char) : Nat :=
  cs.foldl (fun n c => n * 10 + (c.toNat - 48)) 0

/-- Python `str.replace` scan: replace non-overlapping occurrences left to
right; one fuel unit per consumed character suffices for a non-empty
pattern. -/
def replaceFuel (pat rep : List Char) : Nat → List Char → List Char
  | 0, cs => cs
  | fuel + 1, cs =>
    match cs with
    | [] => []
    | c :: rest =>
      if !pat.isEmpty && pat.isPrefixOf cs then
        rep ++ replaceFuel pat rep fuel (cs.drop pat.length)
      else
        c :: replaceFuel pat rep fuel rest

/-- Python `s.replace(pat, rep)` for a non-empty pattern. -/
def strReplace (s pat rep : String) : String :=
  String.mk (replaceFuel pat.toList rep.toList s.length s.toList)

/-! ## Error taxonomy (`backend/app/core/errors.py`)

The repository defines a base `WdspError` with exactly two subclasses:
`FetchError` and `ParseError`, each carrying a message. There is no other
error class in the taxonomy. -/

/-- The repository's own exception classes (`WdspError` subclasses). -/
inductive PyErr where
  | fetchError (message : String)
  | parseError (message : String)
  deriving DecidableEq, Repr

/-- Is this error an instance of the `FetchError` class? -/
def PyErr.isFetchError : PyErr → Bool
  | .fetchError _ => true
  | .parseError _ => false

/-! ## Pagination engine (`backend/app/services/pagination.py`)

`run_pagination` copies its `base_params` dictionary (`params =
dict(base_params or {})`, line 24) and then mutates only that copy. To make
the copy-vs-alias distinction expressible, dictionaries that Python passes
by reference live in a small heap: a `Heap` is a list of dictionaries and a
reference is an index into it. `dict(...)` allocates a fresh slot holding a
copy of the value; `params[k] = v` writes through the `params` reference.

The engine is instrumented with ghost observations that do not influence
control flow: `calls` records the value of the `params` dictionary at each
`fetch_page` call, and `setter_calls` records the values forwarded to
`cursor_setter`. The caller-supplied callbacks are modelled as functions:
`fetch_page` of its `params` argument, and `cursor_getter` of the number of
times it has been called so far (the repository's getter reads a mutable
holder that the page fetch updates, so successive calls may differ). -/

abbrev PDict := List (String × PyVal)

abbrev PRecord := PDict

abbrev Heap := List PDict

def heapGet (h : Heap) (r : Nat) : PDict := (h.get? r).getD []

def heapSet (h : Heap) (r : Nat) (d : PDict) : Heap := h.set r d

/-- `dict(x)`: allocate a fresh dictionary holding a copy of `x`. -/
def heapAlloc (h : Heap) (d : PDict) : Heap × Nat := (h ++ [d], h.length)

/-- The three `Pagination` variants of `backend/app/schemas/pagination.py`.
Pydantic validation bounds (`start ≥ 1`, `limit ≥ 1`, `max_pages ≥ 1`, …)
appear as hypotheses where theorems need them. The `end` field of
`PageParamPagination` is spelled `endPage` because `end` is a Lean keyword. -/
inductive Pagination where
  | pageParam (param : String) (start : Int) (endPage : Int)
  | offset (offset_param : String) (limit_param : String) (limit : Int)
      (max_pages : Int) (start_offset : Int)
  | cursor (cursor_param : String) (cursor_field : String) (max_pages : Int)
      (initial_cursor : Option String)
  deriving DecidableEq, Repr

/-- Mirror of the `PaginationRunResult` dataclass. -/
structure PaginationRunResult where
  pages_fetched : Int
  records_total : Int
  stopped_reason : String
  deriving DecidableEq, Repr

/-- Value of one `run_pagination` call, with ghost observations. -/
structure RunOutput where
  records : List PRecord
  run : PaginationRunResult
  calls : List PDict
  setter_calls : List (Option String)
  heap : Heap
  deriving Repr

/-- The `PageParamPagination` loop (`pagination.py` lines 27-42): one fuel
unit per remaining page of `range(start, end + 1)`. -/
def runPageParam (fetch_page : PDict → List PRecord) (param : String) :
    Nat → Int → Heap → Nat → List PRecord → Int → List PDict → RunOutput
  | 0, _, h, _, acc, pages, calls =>
    ⟨acc, ⟨pages, acc.length, "end_reached"⟩, calls, [], h⟩
  | fuel + 1, page, h, pref, acc, pages, calls =>
    let h := heapSet h pref (dictSet (heapGet h pref) param (.vInt page))
    let ps := heapGet h pref
    let records := fetch_page ps
    let pages := pages + 1
    if records.isEmpty then
      ⟨acc, ⟨pages, acc.length, "empty_page"⟩, calls ++ [ps], [], h⟩
    else
      runPageParam fetch_page param fuel (page + 1) h pref (acc ++ records) pages (calls ++ [ps])

/-- The `OffsetPagination` loop (`pagination.py` lines 44-62): one fuel unit
per remaining iteration of `range(max_pages)`. -/
def runOffset (fetch_page : PDict → List PRecord) (offset_param limit_param : String)
    (limit : Int) :
    Nat → Int → Heap → Nat → List PRecord → Int → List PDict → RunOutput
  | 0, _, h, _, acc, pages, calls =>
    ⟨acc, ⟨pages, acc.length, "max_pages"⟩, calls, [], h⟩
  | fuel + 1, off, h, pref, acc, pages, calls =>
    let h := heapSet h pref (dictSet (heapGet h pref) offset_param (.vInt off))
    let h := heapSet h pref (dictSet (heapGet h pref) limit_param (.vInt limit))
    let ps := heapGet h pref
    let records := fetch_page ps
    let pages := pages + 1
    if records.isEmpty then
      ⟨acc, ⟨pages, acc.length, "empty_page"⟩, calls ++ [ps], [], h⟩
    else
      runOffset fetch_page offset_param limit_param limit fuel (off + limit) h pref
        (acc ++ records) pages (calls ++ [ps])

/-- Lines 68-71: place the cursor at `params[cursor_param]` when set,
else remove that key if present. -/
def cursorParams (d0 : PDict) (cursor_param : String) : Option String → PDict
  | some c => dictSet d0 cursor_param (.vStr c)
  | none => if dictContains d0 cursor_param then dictPop d0 cursor_param else d0

/-- The `CursorPagination` loop (`pagination.py` lines 64-101): one fuel unit
per remaining iteration of `range(max_pages)`. `ncg` counts `cursor_getter`
invocations so far; `setter_present` tells whether a `cursor_setter` was
supplied (its only effect is the forwarded value, recorded as a ghost). -/
def runCursor (fetch_page : PDict → List PRecord) (cursor_param : String)
    (cursor_getter : Option (Nat → Option String)) (setter_present : Bool) :
    Nat → Option String → Nat → Heap → Nat → List PRecord → Int → List PDict →
    List (Option String) → RunOutput
  | 0, _, _, h, _, acc, pages, calls, setcalls =>
    ⟨acc, ⟨pages, acc.length, "max_pages"⟩, calls, setcalls, h⟩
  | fuel + 1, cursor, ncg, h, pref, acc, pages, calls, setcalls =>
    let d := cursorParams (heapGet h pref) cursor_param cursor
    let h := heapSet h pref d
    let records := fetch_page d
    let pages := pages + 1
    if records.isEmpty then
      ⟨acc, ⟨pages, acc.length, "empty_page"⟩, calls ++ [d], setcalls, h⟩
    else
      let acc := acc ++ records
      match cursor_getter with
      | none =>
        ⟨acc, ⟨pages, acc.length, "missing_cursor_getter"⟩, calls ++ [d], setcalls, h⟩
      | some getter =>
        let cursor' := getter ncg
        let setcalls := if setter_present then setcalls ++ [cursor'] else setcalls
        match cursor' with
        | none =>
          ⟨acc, ⟨pages, acc.length, "cursor_missing"⟩, calls ++ [d], setcalls, h⟩
        | some _ =>
          runCursor fetch_page cursor_param cursor_getter setter_present fuel cursor'
            (ncg + 1) h pref acc pages (calls ++ [d]) setcalls

/-- `run_pagination` (`pagination.py` lines 16-103). The final
`raise ValueError("Unknown pagination type")` is unreachable here because
`Pagination` is a closed union. -/
def run_pagination (h : Heap) (pagination : Pagination)
    (fetch_page : PDict → List PRecord) (base_params : Option Nat)
    (cursor_getter : Option (Nat → Option String)) (setter_present : Bool) :
    RunOutput :=
  let base := match base_params with | some r => heapGet h r | none => []
  let ap := heapAlloc h base
  let h := ap.1
  let pref := ap.2
  match pagination with
  | .pageParam param start endPage =>
    runPageParam fetch_page param (endPage + 1 - start).toNat start h pref [] 0 []
  | .offset offset_param limit_param limit max_pages start_offset =>
    runOffset fetch_page offset_param limit_param limit max_pages.toNat start_offset
      h pref [] 0 []
  | .cursor cursor_param _ max_pages initial_cursor =>
    runCursor fetch_page cursor_param cursor_getter setter_present max_pages.toNat
      initial_cursor 0 h pref [] 0 [] []

/-! ## SSRF guard (`backend/app/services/url_safety.py`)

`urllib.parse.urlparse` is a standard-library collaborator: the embedded
functions take its output — the URL's scheme and `hostname` — as input.
`socket.getaddrinfo` is likewise a collaborator, modelled as a function from
host name to either a `gaierror` message or a list of `(family, address)`
entries (the code reads `sockaddr[0]` of each entry).

The standard-library `ipaddress` module is modelled on its IPv4 fragment: a
dotted-quad parser following `ip_address`'s rules (exactly four decimal
octets, each ≤ 255 with no leading zeros) and the IPv4 classification
properties used by `_is_private_or_local`. An address string that this
parser rejects is treated as the `ValueError` branch (blocked), which is
faithful for every IPv4 literal; IPv6 classification is outside the model
and no theorem below depends on it. -/

/-- Output of `urllib.parse.urlparse` as consumed by the guard. Python's
`parsed.hostname` is `None` or a (possibly empty) string; the guard's
`if not host` treats `None` and the empty string alike. -/
structure ParsedUrl where
  scheme : String
  hostname : Option String
  deriving DecidableEq, Repr

/-- Address families of `socket.getaddrinfo` entries (`AF_INET`,
`AF_INET6`, anything else). -/
inductive AddrFamily where
  | af_inet
  | af_inet6
  | af_other
  deriving DecidableEq, Repr

/-- One `getaddrinfo` entry, reduced to the fields the guard reads:
the family and `sockaddr[0]`. -/
structure AddrInfo where
  family : AddrFamily
  addr : String
  deriving DecidableEq, Repr

/-- DNS resolution collaborator: `socket.getaddrinfo(host, None)`, where
`Except.error` is a `socket.gaierror` with its message. -/
abbrev DnsFn := String → Except String (List AddrInfo)

/-- Is `s` a decimal octet as `ipaddress` accepts it: non-empty digits, no
leading zero (except `"0"` itself), value ≤ 255? -/
def isOctet (s : String) : Bool :=
  let cs := s.toList
  (!cs.isEmpty) && cs.all (·.isDigit) && cs.length ≤ 3 &&
    (cs.length = 1 || cs.headD '0' ≠ '0') && digitsToNat cs ≤ 255

/-- Parse a dotted-quad IPv4 literal into its four octets. -/
def parseIPv4 (s : String) : Option (Nat × Nat × Nat × Nat) :=
  match pySplitOn s "." with
  | [a, b, c, d] =>
    if isOctet a && isOctet b && isOctet c && isOctet d then
      some (digitsToNat a.toList, digitsToNat b.toList, digitsToNat c.toList,
        digitsToNat d.toList)
    else none
  | _ => none

/-- `IPv4Address.is_loopback`: 127.0.0.0/8. -/
def ipv4IsLoopback (o : Nat × Nat × Nat × Nat) : Bool := o.1 = 127

/-- `IPv4Address.is_private`: the union of the standard private networks
(0.0.0.0/8, 10.0.0.0/8, 127.0.0.0/8, 169.254.0.0/16, 172.16.0.0/12,
192.0.0.0/29, 192.0.0.170/31, 192.0.2.0/24, 192.168.0.0/16, 198.18.0.0/15,
198.51.100.0/24, 203.0.113.0/24, 240.0.0.0/4, 255.255.255.255/32). -/
def ipv4IsPrivate (o : Nat × Nat × Nat × Nat) : Bool :=
  let a := o.1; let b := o.2.1; let c := o.2.2.1; let d := o.2.2.2
  a = 0 || a = 10 || a = 127 || (a = 169 && b = 254) ||
    (a = 172 && 16 ≤ b && b ≤ 31) || (a = 192 && b = 0 && c = 0 && d ≤ 7) ||
    (a = 192 && b = 0 && c = 0 && (d = 170 || d = 171)) ||
    (a = 192 && b = 0 && c = 2) || (a = 192 && b = 168) ||
    (a = 198 && (b = 18 || b = 19)) || (a = 198 && b = 51 && c = 100) ||
    (a = 203 && b = 0 && c = 113) || 240 ≤ a

/-- `IPv4Address.is_link_local`: 169.254.0.0/16. -/
def ipv4IsLinkLocal (o : Nat × Nat × Nat × Nat) : Bool := o.1 = 169 && o.2.1 = 254

/-- `IPv4Address.is_multicast`: 224.0.0.0/4. -/
def ipv4IsMulticast (o : Nat × Nat × Nat × Nat) : Bool := 224 ≤ o.1 && o.1 ≤ 239

/-- `IPv4Address.is_reserved`: 240.0.0.0/4. -/
def ipv4IsReserved (o : Nat × Nat × Nat × Nat) : Bool := 240 ≤ o.1

/-- The module-level blocked prefixes `_PRIVATE_IP_PREFIXES`. -/
def PRIVATE_IP_PREFIXES : List String := ["127.", "10.", "192.168."]

/-- `_is_private_or_local` (`url_safety.py` lines 18-31): `ValueError` from
`ip_address` returns `True`; otherwise the classification flags, and for
version-4 addresses additionally the literal prefix check. -/
def is_private_or_local (ip : String) : Bool :=
  match parseIPv4 ip with
  | none => true
  | some o =>
    if ipv4IsLoopback o || ipv4IsPrivate o || ipv4IsLinkLocal o ||
        ipv4IsMulticast o || ipv4IsReserved o then
      true
    else
      PRIVATE_IP_PREFIXES.any (fun p => pyStartsWith ip p)

/-- `if not host` for `parsed.hostname`: `None` and `""` are falsy. -/
def hostTruthy : Option String → Bool
  | none => false
  | some h => h ≠ ""

/-- `validate_public_http_url` (`url_safety.py` lines 34-44). Error message
texts are kept without the source's surrounding quote characters. -/
def validate_public_http_url (u : ParsedUrl) : Except PyErr Unit :=
  if u.scheme ≠ "http" ∧ u.scheme ≠ "https" then
    .error (.fetchError "Only http/https URLs are allowed")
  else if ¬ hostTruthy u.hostname then
    .error (.fetchError "Invalid URL: missing host")
  else if u.hostname.getD "" = "localhost" then
    .error (.fetchError "Blocked host: localhost")
  else
    .ok ()

/-- `resolve_and_block_private_hosts` (`url_safety.py` lines 47-75): a
`validate_public_http_url` exception propagates; then the host is
re-parsed, resolved, and blocked if any resolved address is private. -/
def resolve_and_block_private_hosts (dns : DnsFn) (u : ParsedUrl) :
    Except PyErr Unit :=
  match validate_public_http_url u with
  | .error e => .error e
  | .ok _ =>
    if ¬ hostTruthy u.hostname then
      .error (.fetchError "Invalid URL: missing host")
    else
      let host := u.hostname.getD ""
      match dns host with
      | .error exc =>
        .error (.fetchError ("DNS resolution failed for host " ++ host ++ ": " ++ exc))
      | .ok infos =>
        let ips := infos.filterMap fun info =>
          match info.family with
          | .af_inet => some info.addr
          | .af_inet6 => some info.addr
          | .af_other => none
        if ips.isEmpty then
          .error (.fetchError ("No IP addresses resolved for host " ++ host))
        else if ips.any is_private_or_local then
          .error (.fetchError ("Blocked host " ++ host ++ " (resolves to private/internal IP)"))
        else
          .ok ()

/-! ## HTTP fetch layer (`backend/app/services/http_client.py`)

The `requests` library is a collaborator: one call to `requests.get` /
`requests.post` is modelled by a `backend` function from the merged header
map and the attempt number to a `TransportOutcome` — either a
`requests.RequestException` (with message) or a response. Timeouts are
consumed only by `requests` itself and therefore do not appear. The
embedded functions additionally return the number of transport attempts
performed (a ghost observation). -/

/-- The configuration fields of `Settings` that the fetch layer reads. -/
structure HttpSettings where
  http_max_bytes : Nat
  block_private_networks : Bool
  deriving Repr

/-- A `requests.Response`, reduced to the fields the code reads. -/
structure HttpResponse where
  url : String
  status_code : Int
  headers : List (String × String)
  content : List Nat
  deriving DecidableEq, Repr

/-- Result of one transport attempt: a `requests.RequestException`
(connection / timeout / DNS failure inside `requests`) or a response. -/
inductive TransportOutcome where
  | exc (message : String)
  | resp (r : HttpResponse)

/-- One `requests.get`/`requests.post` call: a function of the merged
headers and the attempt index (successive attempts may behave
differently). -/
abbrev Backend := List (String × String) → Nat → TransportOutcome

/-- Mirror of the `FetchResult` dataclass. -/
structure FetchResult where
  url : String
  status_code : Int
  headers : List (String × String)
  content : List Nat
  deriving DecidableEq, Repr

/-- The default user agent header value (`http_client.py` lines 18-22). -/
def DEFAULT_UA : String :=
  "Mozilla/5.0 (Windows NT 10.0; Win64; x64) AppleWebKit/537.36 (KHTML, like Gecko) Chrome/120.0.0.0 Safari/537.36"

/-- `_merged_headers`: default user agent, caller headers win on conflict. -/
def merged_headers (extra : Option (List (String × String))) : List (String × String) :=
  (extra.getD []).foldl (fun m kv => dictSet m kv.1 kv.2) [("User-Agent", DEFAULT_UA)]

/-- `_build_cookie_header`: serialize a non-empty cookie map. -/
def build_cookie_header (cookies : Option (List (String × String))) : Option String :=
  match cookies with
  | none => none
  | some [] => none
  | some cs => some (String.intercalate "; " (cs.map fun kv => kv.1 ++ "=" ++ kv.2))

/-- The attempt loop shared by `get_bytes` (lines 67-93) and `post_bytes`
(lines 122-148): `for attempt in range(max_retries + 1)`. One fuel unit per
remaining iteration; `attempt` is the Python loop variable. The
`FetchError` raised for an oversized response is *not* a
`requests.RequestException`, so it propagates out of the `try` without
being retried. The second component counts transport attempts made. -/
def requestLoop (maxBytes : Nat) (backend : Nat → TransportOutcome)
    (max_retries : Int) (verb : String) :
    Int → Nat → Except PyErr FetchResult × Nat
  | _, 0 =>
    -- Fall-through `raise FetchError(f"Failed to ... URL: {last_error}")`
    -- (line 93 / line 148), reachable only when `range` is empty.
    (.error (.fetchError ("Failed to " ++ verb ++ " URL: None")), 0)
  | attempt, fuel + 1 =>
    match backend attempt.toNat with
    | .resp r =>
      if maxBytes < r.content.length then
        (.error (.fetchError ("Response too large (>" ++ toString maxBytes ++ " bytes)")), 1)
      else
        (.ok ⟨r.url, r.status_code, r.headers, r.content⟩, 1)
    | .exc e =>
      if attempt < max_retries then
        let rest := requestLoop maxBytes backend max_retries verb (attempt + 1) fuel
        (rest.1, rest.2 + 1)
      else
        (.error (.fetchError ("Failed to " ++ verb ++ " URL after " ++
          toString (max_retries + 1) ++ " attempts: " ++ e)), 1)

/-- `get_bytes` (`http_client.py` lines 47-93). `dns`/`u` feed the SSRF
guard; `backend` receives the merged headers (after the cookie header is
folded in) and the attempt number. -/
def get_bytes (s : HttpSettings) (dns : DnsFn) (u : ParsedUrl)
    (headers : Option (List (String × String)))
    (cookies : Option (List (String × String)))
    (max_retries : Int) (backend : Backend) :
    Except PyErr FetchResult × Nat :=
  if s.block_private_networks then
    match resolve_and_block_private_hosts dns u with
    | .error e => (.error e, 0)
    | .ok _ =>
      let merged := merged_headers headers
      let merged :=
        match build_cookie_header cookies with
        | some ch => dictSet merged "Cookie" ch
        | none => merged
      requestLoop s.http_max_bytes (backend merged) max_retries "fetch" 0
        (max_retries + 1).toNat
  else
    let merged := merged_headers headers
    let merged :=
      match build_cookie_header cookies with
      | some ch => dictSet merged "Cookie" ch
      | none => merged
    requestLoop s.http_max_bytes (backend merged) max_retries "fetch" 0
      (max_retries + 1).toNat

/-- `post_bytes` (`http_client.py` lines 96-148). The JSON body is consumed
only by `requests`; its presence decides the default `Content-Type`
header. -/
def post_bytes (s : HttpSettings) (dns : DnsFn) (u : ParsedUrl)
    (headers : Option (List (String × String))) (body_present : Bool)
    (cookies : Option (List (String × String)))
    (max_retries : Int) (backend : Backend) :
    Except PyErr FetchResult × Nat :=
  if s.block_private_networks then
    match resolve_and_block_private_hosts dns u with
    | .error e => (.error e, 0)
    | .ok _ =>
      let merged := merged_headers headers
      let merged :=
        if body_present ∧ ¬ dictContains merged "Content-Type" then
          dictSet merged "Content-Type" "application/json"
        else merged
      let merged :=
        match build_cookie_header cookies with
        | some ch => dictSet merged "Cookie" ch
        | none => merged
      requestLoop s.http_max_bytes (backend merged) max_retries "POST" 0
        (max_retries + 1).toNat
  else
    let merged := merged_headers headers
    let merged :=
      if body_present ∧ ¬ dictContains merged "Content-Type" then
        dictSet merged "Content-Type" "application/json"
      else merged
    let merged :=
      match build_cookie_header cookies with
      | some ch => dictSet merged "Cookie" ch
      | none => merged
    requestLoop s.http_max_bytes (backend merged) max_retries "POST" 0
      (max_retries + 1).toNat

/-! ## JSON record extractor (`backend/app/services/json_extract.py`)

Decoded JSON values become the `Json` inductive; Python dictionaries keep
their insertion order as association lists. The `while queue and visited <
500` loop is a fueled recursion: one fuel unit per pop (`visited`
increment), starting from 500. `bfsCands` is a ghost companion of the same
recursion that lists every list-of-records candidate in pop order. -/

/-- A decoded JSON value. -/
inductive Json where
  | null
  | bool (b : Bool)
  | num (n : Int)
  | str (s : String)
  | arr (elems : List Json)
  | obj (fields : List (String × Json))
  deriving Repr

/-- `_is_record`: `isinstance(obj, dict)`. -/
def is_record : Json → Bool
  | .obj _ => true
  | _ => false

/-- `_is_list_of_records`: a non-empty list whose every element is a dict. -/
def is_list_of_records : Json → Bool
  | .arr xs => !xs.isEmpty && xs.all is_record
  | _ => false

/-- `isinstance(payload, (dict, list))`. -/
def isDictOrList : Json → Bool
  | .obj _ => true
  | .arr _ => true
  | _ => false

/-- Elements of an array node (used once the node is known to be a list). -/
def listElems : Json → List Json
  | .arr xs => xs
  | _ => []

/-- Mirror of the `JsonRecordsResult` dataclass. -/
structure JsonRecordsResult where
  records : List Json
  path : String
  deriving Repr

/-- Children enqueued when expanding `node` at `path`: every key of a dict,
the first 50 elements of a list (`json_extract.py` lines 46-51). -/
def bfsChildren (node : Json) (path : String) : List (Json × String) :=
  match node with
  | .obj kvs => kvs.map fun kv => (kv.2, path ++ "." ++ kv.1)
  | .arr xs => (xs.take 50).enum.map fun p => (p.2, path ++ "[" ++ toString p.1 ++ "]")
  | _ => []

/-- The candidate update of `json_extract.py` lines 41-43: `best` is
replaced only when it is `None` or strictly shorter than the candidate, so
the first candidate of a given maximal length wins. -/
def bestStep (best : Option JsonRecordsResult) (candidate : JsonRecordsResult) :
    Option JsonRecordsResult :=
  if best.isNone || (best.getD ⟨[], ""⟩).records.length < candidate.records.length
  then some candidate else best

/-- The BFS loop of `extract_records_from_json` (lines 36-51): pop, count a
visit, either record the node as a candidate or expand it. -/
def bfsLoop : List (Json × String) → Nat → Option JsonRecordsResult →
    Option JsonRecordsResult
  | [], _, best => best
  | _ :: _, 0, best => best
  | (node, path) :: rest, fuel + 1, best =>
    if is_list_of_records node then
      bfsLoop rest fuel (bestStep best ⟨listElems node, path⟩)
    else
      bfsLoop (rest ++ bfsChildren node path) fuel best

/-- Ghost companion of `bfsLoop`: the candidates (arrays-of-objects popped
within the visit budget) in breadth-first discovery order. -/
def bfsCands : List (Json × String) → Nat → List JsonRecordsResult
  | [], _ => []
  | _ :: _, 0 => []
  | (node, path) :: rest, fuel + 1 =>
    if is_list_of_records node then
      ⟨listElems node, path⟩ :: bfsCands rest fuel
    else
      bfsCands (rest ++ bfsChildren node path) fuel

/-- The BFS portion of `extract_records_from_json`, started on the root. -/
def bfsBest (payload : Json) : Option JsonRecordsResult :=
  bfsLoop [(payload, "$")] 500 none

/-- All candidates the bounded traversal discovers, in discovery order. -/
def bfsCandidates (payload : Json) : List JsonRecordsResult :=
  bfsCands [(payload, "$")] 500

/-- `extract_records_from_json` (`json_extract.py` lines 22-61). -/
def extract_records_from_json (payload : Json) : Option JsonRecordsResult :=
  if is_list_of_records payload then
    some ⟨listElems payload, "$"⟩
  else if ¬ isDictOrList payload then
    none
  else
    match bfsBest payload with
    | some best => some best
    | none =>
      match payload with
      | .obj kvs => if kvs.isEmpty then none else some ⟨[.obj kvs], "$"⟩
      | _ => none

/-- `get_top_level_cursor` (`json_extract.py` lines 64-79): walk a
dot-separated key path through nested dicts. `str(node)` on the found leaf
is a collaborator conversion, modelled for the scalar cases. -/
def pyStr : Json → String
  | .null => "None"
  | .bool b => if b then "True" else "False"
  | .num n => toString n
  | .str s => s
  | .arr _ => "<list>"
  | .obj _ => "<dict>"

def get_top_level_cursor (payload : Json) (cursor_field : String) : Option String :=
  if cursor_field = "" then none
  else
    let rec walk : Json → List String → Option String
      | node, [] => some (pyStr node)
      | node, part :: rest =>
        if part = "" then none
        else
          match node with
          | .obj kvs =>
            match dictGet kvs part with
            | none => none
            | some .null => none
            | some v => walk v rest
          | _ => none
    walk payload (pySplitOn cursor_field ".")

/-! ## Field matcher (`backend/app/services/field_filter.py`)

Records are dictionaries with arbitrary values; the matcher only reads
keys, so it is generic in the value type. `sorted(set(...))` over strings
is "the lexicographically sorted list of distinct keys" (Python compares
strings by code point, as Lean's `String` order does). -/

/-- Is `c` in `[a-z0-9]`? -/
def isLowerAlnum (c : Char) : Bool :=
  (('a' ≤ c) && (c ≤ 'z')) || (('0' ≤ c) && (c ≤ '9'))

/-- `normalize_field_name` (`field_filter.py` lines 14-29): lowercase, then
drop every character outside `[a-z0-9]`. -/
def normalize_field_name (name : String) : String :=
  String.mk ((name.toList.map Char.toLower).filter isLowerAlnum)

/-- Python's substring test `needle in hay`. -/
def strIn (needle hay : String) : Bool :=
  hay.toList.tails.any fun t => needle.toList.isPrefixOf t

/-- Mirror of the `FieldMatchResult` dataclass. -/
structure FieldMatchResult where
  matched_fields : List (String × String)
  unmatched_requested : List String
  all_available_fields : List String
  deriving DecidableEq, Repr

/-- `sorted(all_fields)` where `all_fields` is the set union of record
keys: distinct keys in lexicographic order. -/
def sortedFieldSet {α : Type} (records : List (List (String × α))) : List String :=
  pySorted (dedupFirst (records.flatMap fun r => r.map Prod.fst))

/-- The `normalized_to_actual` construction (`field_filter.py` lines
69-74): scan `fields` in order; a fresh normalized form is appended, a
collision keeps the map position and prefers the strictly shorter name. -/
def buildNTA (m : List (String × String)) : List String → List (String × String)
  | [] => m
  | f :: rest =>
    let n := normalize_field_name f
    let m' :=
      match dictGet m n with
      | none => m ++ [(n, f)]
      | some cur => if f.length < cur.length then dictSet m n f else m
    buildNTA m' rest

/-- The partial-match predicate of lines 91-92: `req_norm in norm or norm
in req_norm` for a map entry `(norm, actual)`. -/
def partialMatchPred (req_norm : String) (p : String × String) : Bool :=
  strIn req_norm p.1 || strIn p.1 req_norm

/-- The per-request matching loop (`field_filter.py` lines 80-97),
threading the `matched` dict and `unmatched` list. -/
def matchReqLoop (ntoa : List (String × String)) :
    List (String × String) → List String → List String →
    List (String × String) × List String
  | matched, unmatched, [] => (matched, unmatched)
  | matched, unmatched, req :: rest =>
    let req_norm := normalize_field_name req
    if req_norm = "" then matchReqLoop ntoa matched unmatched rest
    else
      match dictGet ntoa req_norm with
      | some actual => matchReqLoop ntoa (dictSet matched req actual) unmatched rest
      | none =>
        match ntoa.find? (partialMatchPred req_norm) with
        | some p => matchReqLoop ntoa (dictSet matched req p.2) unmatched rest
        | none => matchReqLoop ntoa matched (unmatched ++ [req]) rest

/-- The value the matching loop (`field_filter.py` lines 80-97) assigns to
one requested field: `none` both when the request normalizes to empty
(skipped) and when neither an exact nor a partial match exists (the
request is recorded unmatched). -/
def valueFor (ntoa : List (String × String)) (req : String) : Option String :=
  let req_norm := normalize_field_name req
  if req_norm = "" then none
  else
    match dictGet ntoa req_norm with
    | some actual => some actual
    | none =>
      match ntoa.find? (partialMatchPred req_norm) with
      | some p => some p.2
      | none => none

/-- `match_requested_fields` (`field_filter.py` lines 40-103). -/
def match_requested_fields {α : Type} (records : List (List (String × α)))
    (requested_fields : List String) : FieldMatchResult :=
  if records.isEmpty then
    ⟨[], requested_fields, []⟩
  else
    let all_fields_list := sortedFieldSet records
    let normalized_to_actual := buildNTA [] all_fields_list
    let mu := matchReqLoop normalized_to_actual [] [] requested_fields
    ⟨mu.1, mu.2, all_fields_list⟩

/-- `filter_records_by_fields` (`field_filter.py` lines 106-151). -/
def filter_records_by_fields {α : Type} (records : List (List (String × α)))
    (requested_fields : List String) :
    List (List (String × α)) × FieldMatchResult :=
  if requested_fields.isEmpty then
    (records, ⟨[], [], sortedFieldSet records⟩)
  else
    let match_result := match_requested_fields records requested_fields
    if match_result.matched_fields.isEmpty then
      ([], match_result)
    else
      let keep := match_result.matched_fields.map Prod.snd
      let filtered := (records.map fun r => r.filter fun kv => kv.1 ∈ keep).filter
        fun r => !r.isEmpty
      (filtered, match_result)

/-- Formalisation of the SPEC's words for C6's fallback clause, to compare
with the source's behaviour: "accept the first available field, in
alphabetical order of actual field names, whose normalized form contains
the requested field's normalized form or is contained in it". -/
def specClaimFallback (all_fields_sorted : List String) (req_norm : String) :
    Option String :=
  all_fields_sorted.find? fun f =>
    strIn req_norm (normalize_field_name f) || strIn (normalize_field_name f) req_norm

/-! ## HTML record extractor (`backend/app/services/html_extract.py`)

BeautifulSoup is a collaborator: parsing and CSS selection happen before
the repository's logic starts. The embedding works on the parsed tree — an
`HNode` is an element (tag name, attributes, children) or a text node.
`soup.select(selector)` and `soup.find_all("table")` results are inputs to
the embedded functions. bs4 multi-valued attributes (such as `class`) carry
a list of tokens, other attributes a plain string. -/

/-- A bs4 attribute value: plain string or multi-valued token list. -/
inductive AttrVal where
  | s (v : String)
  | l (vs : List String)
  deriving DecidableEq, Repr

/-- A node of the parsed HTML tree. -/
inductive HNode where
  | elem (name : String) (attrs : List (String × AttrVal)) (children : List HNode)
  | text (s : String)
  deriving Repr

def HNode.name : HNode → String
  | .elem n _ _ => n
  | .text _ => ""

def HNode.attrs : HNode → List (String × AttrVal)
  | .elem _ a _ => a
  | .text _ => []

mutual

/-- Text strings of the subtree below a node, in document order
(the node's own string for a text node). -/
def nodeStrings : HNode → List String
  | .text s => [s]
  | .elem _ _ cs => listStrings cs

def listStrings : List HNode → List String
  | [] => []
  | n :: ns => nodeStrings n ++ listStrings ns

end

/-- `_get_element_text`: `get_text(" ", strip=True)` joins each descendant
string stripped, skipping the ones that strip to empty. -/
def get_element_text (n : HNode) : String :=
  String.intercalate " " (((nodeStrings n).map pyStrip).filter (· ≠ ""))

mutual

/-- Descendant *elements* of a node (excluding the node itself), in
document (preorder) order — `find_all(True)`. -/
def descElems : HNode → List HNode
  | .text _ => []
  | .elem _ _ cs => descElemsList cs

def descElemsList : List HNode → List HNode
  | [] => []
  | n :: ns =>
    (match n with
     | .elem nm a cs => [HNode.elem nm a cs]
     | .text _ => []) ++ descElems n ++ descElemsList ns

end

/-- `_get_element_attribute` (`html_extract.py` lines 48-53). -/
def get_element_attribute (n : HNode) (attr : String) : Option String :=
  match dictGet n.attrs attr with
  | none => none
  | some (.s v) => if v ≠ "" then some (pyStrip v) else none
  | some (.l vs) => if !vs.isEmpty then vs.head? else none

/-- Python truthiness filter on an optional string (`if href:` after
`_get_element_attribute`, and the `or` chaining for `src`). -/
def truthyStr : Option String → Option String
  | some v => if v = "" then none else some v
  | none => none

/-- `element.get("class", [])`. -/
def classList (n : HNode) : List String :=
  match dictGet n.attrs "class" with
  | some (.l vs) => vs
  | some (.s v) => [v]
  | none => []

/-- `find_all(True, class_=True)`: descendant elements carrying a `class`
attribute. -/
def descElemsWithClass (n : HNode) : List HNode :=
  (descElems n).filter fun c => dictContains c.attrs "class"

/-- `_clean_key` (`html_extract.py` lines 17-21): strip, lowercase, replace
every maximal run outside `[a-z0-9]` by one underscore, strip underscores. -/
def collapseRunsAux : Bool → List Char → List Char
  | _, [] => []
  | inRun, c :: rest =>
    if isLowerAlnum c then c :: collapseRunsAux false rest
    else if inRun then collapseRunsAux true rest
    else '_' :: collapseRunsAux true rest

def collapseRuns (cs : List Char) : List Char := collapseRunsAux false cs

def clean_key (raw : String) : String :=
  let cs := ((pyStrip raw).toList.map Char.toLower)
  String.mk (((collapseRuns cs).dropWhile (· = '_')).reverse.dropWhile (· = '_') |>.reverse)

/-- `_extract_class_suffix` (`html_extract.py` lines 24-40). -/
def extract_class_suffix (class_name : String) : String :=
  if strIn "__" class_name then
    clean_key ((pySplitOn class_name "__").getLastD "")
  else if strIn "--" class_name then
    clean_key ((pySplitOn class_name "--").getLastD "")
  else
    clean_key class_name

/-- Records extracted from HTML carry the `_index` int or string text
values; reuse `PyVal`. -/
abbrev HRecord := List (String × PyVal)

/-- The meta keys of strategy 4 (`html_extract.py` line 130). -/
def metaKeys : List String := ["_index", "link", "src", "alt"]

/-- Strategy 1 (`html_extract.py` lines 83-94): the matched element itself
is a link or an image. -/
def strat1 (e : HNode) (record : HRecord) : HRecord :=
  if e.name = "a" then
    match truthyStr (get_element_attribute e "href") with
    | some href => dictSet record "link" (.vStr href)
    | none => record
  else if e.name = "img" then
    let record :=
      match truthyStr (get_element_attribute e "src") <|>
            truthyStr (get_element_attribute e "data-src") with
      | some src => dictSet record "src" (.vStr src)
      | none => record
    match truthyStr (get_element_attribute e "alt") with
    | some alt => dictSet record "alt" (.vStr alt)
    | none => record
  else record

/-- Strategy 2 inner loop body (`html_extract.py` lines 99-119): one class
token of one classed descendant. -/
def strat2Cls (child : HNode) (record : HRecord) (cls : String) : HRecord :=
  let field_name := extract_class_suffix cls
  if field_name ≠ "" ∧ 2 ≤ field_name.length then
    let text := get_element_text child
    let record :=
      if text ≠ "" ∧ ¬ dictContains record field_name then
        dictSet record field_name (.vStr text)
      else record
    let record :=
      if child.name = "a" then
        match truthyStr (get_element_attribute child "href") with
        | some href => dictSet record (field_name ++ "_url") (.vStr href)
        | none => record
      else record
    if child.name = "img" then
      let record :=
        match truthyStr (get_element_attribute child "src") <|>
              truthyStr (get_element_attribute child "data-src") with
        | some src => dictSet record (field_name ++ "_image") (.vStr src)
        | none => record
      match truthyStr (get_element_attribute child "alt") with
      | some alt => dictSet record (field_name ++ "_alt") (.vStr alt)
      | none => record
    else record
  else record

/-- Strategy 3 loop body (`html_extract.py` lines 122-126): one attribute
of the matched element (`data-*` lifting). -/
def strat3Step (record : HRecord) (av : String × AttrVal) : HRecord :=
  let truthyVal := match av.2 with | .s v => v ≠ "" | .l vs => !vs.isEmpty
  if pyStartsWith av.1 "data-" && truthyVal then
    let field_name := clean_key (strReplace av.1 "data-" "")
    match av.2 with
    | .s v => if field_name ≠ "" then dictSet record field_name (.vStr v) else record
    | .l _ => record
  else record

/-- Strategy 4 (`html_extract.py` lines 128-136): full-text fallback when
only meta keys are present. -/
def strat4 (e : HNode) (record : HRecord) : HRecord :=
  let has_content_fields := record.any fun kv => kv.1 ∉ metaKeys
  if ¬ has_content_fields then
    let full_text := get_element_text e
    if full_text ≠ "" then dictSet record "text" (.vStr full_text) else record
  else record

/-- Strategies 1-4 for one matched element (`html_extract.py` lines
81-136), *before* the `_index` drop. -/
def buildRecordPre (idx : Nat) (e : HNode) : HRecord :=
  strat4 e
    (e.attrs.foldl strat3Step
      ((descElemsWithClass e).foldl
        (fun record child => (classList child).foldl (strat2Cls child) record)
        (strat1 e [("_index", .vInt (idx + 1))])))

/-- The `_index` drop (line 139-140) and emission test (line 143) applied
to one element's record. -/
def buildRecord (idx : Nat) (e : HNode) : HRecord :=
  let record := buildRecordPre idx e
  if 2 < record.length then dictPop record "_index" else record

def emitRecord (r : HRecord) : List HRecord :=
  if 1 < r.length ∨ (r.length = 1 ∧ ¬ dictContains r "_index") then [r] else []

/-- `extract_records_with_selector` (`html_extract.py` lines 56-146), on
the elements `soup.select(css_selector)` returned. -/
def extract_records_with_selector (elements : List HNode) : List HRecord :=
  if elements.isEmpty then []
  else elements.enum.flatMap fun ie => emitRecord (buildRecord ie.1 ie.2)

/-- Headers of one table (`html_extract.py` lines 167-181): `th` texts of
the first `tr`, else its `td` texts, blanks replaced by positional
placeholders. -/
def tableHeaders (table : HNode) : List String :=
  let header_row := (descElems table).find? fun n => n.name = "tr"
  let headers : List String :=
    match header_row with
    | none => []
    | some hr =>
      let ths := (descElems hr).filter fun n => n.name = "th"
      if !ths.isEmpty then ths.map get_element_text
      else ((descElems hr).filter fun n => n.name = "td").map get_element_text
  headers.enum.map fun ih => if ih.2 ≠ "" then ih.2 else "col_" ++ toString (ih.1 + 1)

/-- Data records of one table (`html_extract.py` lines 186-194): every
`tr` after the first; cells truncated to the header count, padded with
`None`; all-blank rows skipped. -/
def tableRecords (table : HNode) : List HRecord :=
  let headers := tableHeaders table
  if headers.isEmpty then []
  else
    let rows := (descElems table).filter fun n => n.name = "tr"
    (rows.drop 1).flatMap fun tr =>
      let cells := (((descElems tr).filter fun n => n.name = "td" ∨ n.name = "th").take
        headers.length).map get_element_text
      if cells.all (· = "") then []
      else
        [(List.range headers.length).foldl (fun d i =>
          dictSet d (headers.getD i "")
            (match cells.get? i with
             | some c => .vStr c
             | none => .vNull)) []]

/-- `extract_records_from_tables` (`html_extract.py` lines 149-200) on the
`soup.find_all("table")` result: the table with the most data rows wins,
first found on ties. A table with no headers is skipped (`continue`). -/
def extract_records_from_tables (tables : List HNode) : List HRecord :=
  (tables.foldl (fun best table =>
    let records := tableRecords table
    if best.2 < records.length then (records, records.length) else best)
    (([] : List HRecord), 0)).1

/-- `extract_records_from_html` (`html_extract.py` lines 203-231). The
`select` function models `soup.select` on the document being extracted;
`tables` models its `soup.find_all("table")`. -/
def extract_records_from_html (select : String → List HNode) (tables : List HNode)
    (css_selector : Option String) : List HRecord :=
  match css_selector with
  | some sel =>
    if sel ≠ "" ∧ pyStrip sel ≠ "" then
      extract_records_with_selector (select (pyStrip sel))
    else
      let table_records := extract_records_from_tables tables
      if !table_records.isEmpty then table_records else []
  | none =>
    let table_records := extract_records_from_tables tables
    if !table_records.isEmpty then table_records else []

/-! ## Batch/identifier injector (`backend/app/api/analyze.py`, lines 29-56)

`copy.deepcopy` is the identity on values in a pure embedding. -/

/-- `_inject_identifier` (`analyze.py` lines 29-56). The request body is an
optional JSON object (`Optional[dict]`), modelled as its field list. Note
`if new_body:` — an *empty* body dict is falsy and receives no injection. -/
def inject_identifier (identifier : String) (var_name : String) (url : String)
    (params : List (String × PyVal)) (body : Option (List (String × Json))) :
    String × List (String × PyVal) × Option (List (String × Json)) :=
  let new_url := strReplace url ("\x7b" ++ var_name ++ "\x7d") identifier
  let new_params :=
    if dictContains params var_name then dictSet params var_name (.vStr identifier)
    else params
  let new_body := body.map fun fields =>
    if fields.isEmpty then fields
    else
      let fields :=
        if dictContains fields var_name then dictSet fields var_name (.str identifier)
        else fields
      match dictGet fields "variables" with
      | some (.obj vars) =>
        if dictContains vars var_name then
          dictSet fields "variables" (.obj (dictSet vars var_name (.str identifier)))
        else fields
      | _ => fields
  (new_url, new_params, new_body)

/-! # Theorems

Dictionary and heap lemmas, then the verified properties, one theorem per
claim (with witnesses for theorems that carry hypotheses, and closed
counterexamples where the source deviates from the specified sentence). -/

theorem dictGet_dictSet_self {α : Type} (d : List (String × α)) (k : String) (v : α) :
    dictGet (dictSet d k v) k = some v := by
  induction d with
  | nil => simp [dictGet, dictSet]
  | cons p rest ih =>
    by_cases h : p.1 = k <;> simp [dictGet, dictSet, h, ih]

theorem dictGet_dictSet_ne {α : Type} (d : List (String × α)) (k k' : String) (v : α)
    (h : k ≠ k') : dictGet (dictSet d k v) k' = dictGet d k' := by
  induction d with
  | nil => simp [dictGet, dictSet, h]
  | cons p rest ih =>
    by_cases hp : p.1 = k
    · simp [dictGet, dictSet, hp, h]
    · simp only [dictSet, hp, if_false]
      by_cases hp' : p.1 = k' <;> simp [dictGet, hp', ih]

theorem heapGet_heapSet_ne : ∀ (h : Heap) (p r : Nat) (d : PDict), r ≠ p →
    heapGet (heapSet h p d) r = heapGet h r := by
  intro h
  induction h with
  | nil => intro p r d _; rfl
  | cons x xs ih =>
    intro p r d hr
    cases p with
    | zero =>
      cases r with
      | zero => exact absurd rfl hr
      | succ r => rfl
    | succ p =>
      cases r with
      | zero => rfl
      | succ r => exact ih p r d (fun hh => hr (by rw [hh]))

theorem heapGet_heapSet_self : ∀ (h : Heap) (p : Nat) (d : PDict), p < h.length →
    heapGet (heapSet h p d) p = d := by
  intro h
  induction h with
  | nil => intro p d hp; exact absurd hp (by simp)
  | cons x xs ih =>
    intro p d hp
    cases p with
    | zero => rfl
    | succ p => exact ih p d (Nat.lt_of_succ_lt_succ hp)

theorem heapGet_append : ∀ (h h2 : Heap) (r : Nat), r < h.length →
    heapGet (h ++ h2) r = heapGet h r := by
  intro h
  induction h with
  | nil => intro h2 r hr; exact absurd hr (by simp)
  | cons x xs ih =>
    intro h2 r hr
    cases r with
    | zero => rfl
    | succ r => exact ih h2 r (Nat.lt_of_succ_lt_succ hr)

theorem heapSet_length (h : Heap) (p : Nat) (d : PDict) :
    (heapSet h p d).length = h.length := List.length_set h p d

/-! ### Pagination engine frame and run lemmas -/

theorem runPageParam_frame (fetch : PDict → List PRecord) (param : String) :
    ∀ (fuel : Nat) (page : Int) (h : Heap) (pref : Nat) (acc : List PRecord)
      (pages : Int) (calls : List PDict) (r : Nat), r ≠ pref →
      heapGet (runPageParam fetch param fuel page h pref acc pages calls).heap r
        = heapGet h r := by
  intro fuel
  induction fuel with
  | zero => intro page h pref acc pages calls r hr; rfl
  | succ n ih =>
    intro page h pref acc pages calls r hr
    simp only [runPageParam]
    split
    · exact heapGet_heapSet_ne h pref r _ hr
    · exact (ih _ _ _ _ _ _ r hr).trans (heapGet_heapSet_ne h pref r _ hr)

theorem runOffset_frame (fetch : PDict → List PRecord) (op lp : String) (limit : Int) :
    ∀ (fuel : Nat) (off : Int) (h : Heap) (pref : Nat) (acc : List PRecord)
      (pages : Int) (calls : List PDict) (r : Nat), r ≠ pref →
      heapGet (runOffset fetch op lp limit fuel off h pref acc pages calls).heap r
        = heapGet h r := by
  intro fuel
  induction fuel with
  | zero => intro off h pref acc pages calls r hr; rfl
  | succ n ih =>
    intro off h pref acc pages calls r hr
    simp only [runOffset]
    split
    · exact ((heapGet_heapSet_ne _ pref r _ hr).trans (heapGet_heapSet_ne h pref r _ hr))
    · exact (ih _ _ _ _ _ _ r hr).trans
        ((heapGet_heapSet_ne _ pref r _ hr).trans (heapGet_heapSet_ne h pref r _ hr))

theorem runCursor_frame (fetch : PDict → List PRecord) (cp : String)
    (cg : Option (Nat → Option String)) (sp : Bool) :
    ∀ (fuel : Nat) (cursor : Option String) (ncg : Nat) (h : Heap) (pref : Nat)
      (acc : List PRecord) (pages : Int) (calls : List PDict)
      (setcalls : List (Option String)) (r : Nat), r ≠ pref →
      heapGet (runCursor fetch cp cg sp fuel cursor ncg h pref acc pages calls
        setcalls).heap r = heapGet h r := by
  intro fuel
  induction fuel with
  | zero => intro cursor ncg h pref acc pages calls setcalls r hr; rfl
  | succ n ih =>
    intro cursor ncg h pref acc pages calls setcalls r hr
    simp only [runCursor]
    generalize cursorParams (heapGet h pref) cp cursor = d
    split
    · exact heapGet_heapSet_ne h pref r _ hr
    · cases cg with
      | none => exact heapGet_heapSet_ne h pref r _ hr
      | some getter =>
        cases hget : getter ncg with
        | none =>
          simp only [hget]
          exact heapGet_heapSet_ne h pref r _ hr
        | some v =>
          simp only [hget]
          exact (ih _ _ _ _ _ _ _ _ r hr).trans (heapGet_heapSet_ne h pref r _ hr)

/-- C10: for every pagination run of any variant, the caller-supplied
`base_params` dictionary — and in fact every dictionary that existed before
the run — is unchanged afterwards: the engine writes the page / offset /
limit / cursor keys only into its own private copy allocated by
`params = dict(base_params or {})`. -/
theorem claim_C10_base_params_unchanged (h : Heap) (pagination : Pagination)
    (fetch : PDict → List PRecord) (bp : Nat)
    (cg : Option (Nat → Option String)) (sp : Bool) (r : Nat) (hr : r < h.length) :
    heapGet (run_pagination h pagination fetch (some bp) cg sp).heap r = heapGet h r := by
  have hne : r ≠ h.length := Nat.ne_of_lt hr
  cases pagination with
  | pageParam param start endPage =>
    simp only [run_pagination, heapAlloc]
    exact (runPageParam_frame fetch param _ _ _ _ _ _ _ r hne).trans
      (heapGet_append h _ r hr)
  | offset op lp limit mp so =>
    simp only [run_pagination, heapAlloc]
    exact (runOffset_frame fetch op lp limit _ _ _ _ _ _ _ r hne).trans
      (heapGet_append h _ r hr)
  | cursor cp cf mp ic =>
    simp only [run_pagination, heapAlloc]
    exact (runCursor_frame fetch cp cg sp _ _ _ _ _ _ _ _ _ r hne).trans
      (heapGet_append h _ r hr)

/-- Witness for C10 at a concrete input. -/
theorem claim_C10_base_params_unchanged_witness :
    heapGet (run_pagination [[("a", PyVal.vStr "x")]] (.offset "o" "l" 2 3 0)
      (fun _ => []) (some 0) none false).heap 0
      = heapGet [[("a", PyVal.vStr "x")]] 0 :=
  claim_C10_base_params_unchanged [[("a", PyVal.vStr "x")]] (.offset "o" "l" 2 3 0)
    (fun _ => []) 0 none false 0 (by decide)

/-- One cursor iteration with no getter terminates the run: after the
single `fetch_page` call the engine returns `empty_page` on an empty page
and `missing_cursor_getter` otherwise. -/
theorem runCursor_no_getter (fetch : PDict → List PRecord) (cp : String) (sp : Bool)
    (k : Nat) (cursor : Option String) (ncg : Nat) (h : Heap) (pref : Nat)
    (acc : List PRecord) (pages : Int) (calls : List PDict)
    (setcalls : List (Option String)) :
    ∃ p, (runCursor fetch cp none sp (k + 1) cursor ncg h pref acc pages calls
        setcalls).calls = calls ++ [p] ∧
      (runCursor fetch cp none sp (k + 1) cursor ncg h pref acc pages calls
        setcalls).run.pages_fetched = pages + 1 ∧
      (runCursor fetch cp none sp (k + 1) cursor ncg h pref acc pages calls
        setcalls).run.stopped_reason =
        (if (fetch p).isEmpty then "empty_page" else "missing_cursor_getter") := by
  simp only [runCursor]
  by_cases hemp : (fetch (cursorParams (heapGet h pref) cp cursor)).isEmpty
  · exact ⟨cursorParams (heapGet h pref) cp cursor,
      by simp [hemp], by simp [hemp], by simp [hemp]⟩
  · exact ⟨cursorParams (heapGet h pref) cp cursor,
      by simp [hemp], by simp [hemp], by simp [hemp]⟩

/-- C2 (amended): a cursor-pagination run with no `cursorGetter` and
`maxPages ≥ 1` stops after exactly one `fetchPage` call; the reported
`stoppedReason` is `missing_cursor_getter` when that first page is
non-empty, and `empty_page` when it is empty. -/
theorem claim_C2_cursor_without_getter (h : Heap) (cp cf : String) (mp : Int)
    (ic : Option String) (fetch : PDict → List PRecord) (bp : Option Nat)
    (sp : Bool) (hmp : 1 ≤ mp) :
    ∃ p, (run_pagination h (.cursor cp cf mp ic) fetch bp none sp).calls = [p] ∧
      (run_pagination h (.cursor cp cf mp ic) fetch bp none sp).run.pages_fetched = 1 ∧
      (run_pagination h (.cursor cp cf mp ic) fetch bp none sp).run.stopped_reason =
        (if (fetch p).isEmpty then "empty_page" else "missing_cursor_getter") := by
  obtain ⟨k, hk⟩ : ∃ k, mp.toNat = k + 1 := ⟨mp.toNat - 1, by omega⟩
  simp only [run_pagination, heapAlloc, hk]
  obtain ⟨p, h1, h2, h3⟩ := runCursor_no_getter fetch cp sp k ic 0 _ _ [] 0 [] []
  exact ⟨p, by simpa using h1, by simpa using h2, h3⟩

/-- Witness for C2's amended theorem at a concrete input. -/
theorem claim_C2_cursor_without_getter_witness :
    ∃ p, (run_pagination [] (.cursor "c" "f" 2 none)
        (fun _ => [[("k", PyVal.vInt 1)]]) none none false).calls = [p] ∧
      (run_pagination [] (.cursor "c" "f" 2 none)
        (fun _ => [[("k", PyVal.vInt 1)]]) none none false).run.pages_fetched = 1 ∧
      (run_pagination [] (.cursor "c" "f" 2 none)
        (fun _ => [[("k", PyVal.vInt 1)]]) none none false).run.stopped_reason =
        (if ((fun (_ : PDict) => [[("k", PyVal.vInt 1)]]) p).isEmpty then "empty_page"
         else "missing_cursor_getter") :=
  claim_C2_cursor_without_getter [] "c" "f" 2 none
    (fun _ => [[("k", PyVal.vInt 1)]]) none false (by decide)

/-- C2 (counterexample to the claim as stated): with no `cursorGetter` and
an *empty* first page the engine stops after one page with reason
`empty_page`, not `missing_cursor_getter`; so the claimed reason does not
hold "for every possible result of that first page fetch". -/
theorem claim_C2_counterexample :
    (run_pagination [] (.cursor "c" "f" 3 none) (fun _ => []) none none
      false).run.pages_fetched = 1 ∧
    (run_pagination [] (.cursor "c" "f" 3 none) (fun _ => []) none none
      false).run.stopped_reason = "empty_page" ∧
    (run_pagination [] (.cursor "c" "f" 3 none) (fun _ => []) none none
      false).run.stopped_reason ≠ "missing_cursor_getter" := by
  refine ⟨rfl, rfl, by decide⟩

theorem runOffset_total (fetch : PDict → List PRecord) (op lp : String) (limit : Int)
    (hne : op ≠ lp) (hfetch : ∀ p, (fetch p).isEmpty = false) :
    ∀ (fuel : Nat) (off : Int) (h : Heap) (pref : Nat) (acc : List PRecord)
      (pages : Int) (calls : List PDict), pref < h.length →
      (runOffset fetch op lp limit fuel off h pref acc pages calls).run.pages_fetched
          = pages + fuel ∧
      (runOffset fetch op lp limit fuel off h pref acc pages calls).run.stopped_reason
          = "max_pages" ∧
      (runOffset fetch op lp limit fuel off h pref acc pages calls).calls.map
          (fun d => dictGet d op)
        = calls.map (fun d => dictGet d op) ++
          (List.range fuel).map (fun i => some (.vInt (off + limit * i))) := by
  intro fuel
  induction fuel with
  | zero =>
    intro off h pref acc pages calls _
    exact ⟨by simp [runOffset], rfl, by simp [runOffset]⟩
  | succ n ih =>
    intro off h pref acc pages calls hpref
    simp only [runOffset, hfetch, Bool.false_eq_true, if_false]
    rw [heapGet_heapSet_self _ _ _ hpref,
      heapGet_heapSet_self _ _ _ (by rw [heapSet_length]; exact hpref)]
    obtain ⟨ih1, ih2, ih3⟩ := ih (off + limit)
      (heapSet (heapSet h pref (dictSet (heapGet h pref) op (.vInt off))) pref
        (dictSet (dictSet (heapGet h pref) op (.vInt off)) lp (.vInt limit)))
      pref
      (acc ++ fetch (dictSet (dictSet (heapGet h pref) op (.vInt off)) lp (.vInt limit)))
      (pages + 1)
      (calls ++ [dictSet (dictSet (heapGet h pref) op (.vInt off)) lp (.vInt limit)])
      (by rw [heapSet_length, heapSet_length]; exact hpref)
    refine ⟨by rw [ih1]; push_cast; ring, ih2, ?_⟩
    rw [ih3, List.range_succ_eq_map, List.map_cons, List.map_map, List.map_append]
    have harith : ∀ i : Nat, off + limit + limit * (i : Int) = off + limit * ((i : Int) + 1) := by
      intro i; ring
    simp only [Function.comp, Nat.cast_succ, harith]
    rw [List.map_singleton,
      dictGet_dictSet_ne _ lp op _ (fun hh => hne hh.symm), dictGet_dictSet_self]
    simp [List.append_assoc]


/-- C5: an offset-pagination run with `startOffset = 0`, `limit = 20`,
`maxPages = 5` whose every fetched page is non-empty reports
`pagesFetched = 5` and `stoppedReason = "max_pages"`, and the offsets
placed into the request parameters across the five `fetchPage` calls are
exactly 0, 20, 40, 60, 80. -/
theorem claim_C5_offset_pagination (h : Heap) (op lp : String) (bp : Option Nat)
    (fetch : PDict → List PRecord) (hne : op ≠ lp)
    (hfetch : ∀ p, fetch p ≠ []) :
    (run_pagination h (.offset op lp 20 5 0) fetch bp none false).run.pages_fetched = 5 ∧
    (run_pagination h (.offset op lp 20 5 0) fetch bp none false).run.stopped_reason
      = "max_pages" ∧
    (run_pagination h (.offset op lp 20 5 0) fetch bp none false).calls.map
        (fun d => dictGet d op)
      = [some (.vInt 0), some (.vInt 20), some (.vInt 40), some (.vInt 60),
         some (.vInt 80)] := by
  have hfe : ∀ p, (fetch p).isEmpty = false := by
    intro p
    cases hp : fetch p with
    | nil => exact absurd hp (hfetch p)
    | cons a l => rfl
  simp only [run_pagination, heapAlloc]
  obtain ⟨h1, h2, h3⟩ := runOffset_total fetch op lp 20 hne hfe (Int.toNat 5) 0
    (h ++ [match bp with | some r => heapGet h r | none => []]) h.length [] 0 []
    (by simp)
  refine ⟨by rw [h1]; rfl, h2, ?_⟩
  rw [h3]
  simp only [List.map_nil, List.nil_append]
  decide

/-- Witness for C5 at a concrete input. -/
theorem claim_C5_offset_pagination_witness :
    (run_pagination [] (.offset "offset" "limit" 20 5 0)
      (fun _ => [[("k", PyVal.vInt 1)]]) none none false).run.pages_fetched = 5 ∧
    (run_pagination [] (.offset "offset" "limit" 20 5 0)
      (fun _ => [[("k", PyVal.vInt 1)]]) none none false).run.stopped_reason
      = "max_pages" ∧
    (run_pagination [] (.offset "offset" "limit" 20 5 0)
      (fun _ => [[("k", PyVal.vInt 1)]]) none none false).calls.map
        (fun d => dictGet d "offset")
      = [some (.vInt 0), some (.vInt 20), some (.vInt 40), some (.vInt 60),
         some (.vInt 80)] :=
  claim_C5_offset_pagination [] "offset" "limit" none
    (fun _ => [[("k", PyVal.vInt 1)]]) (by decide) (fun p => by simp)

/-! ### SSRF guard (C1) -/

theorem validate_error_shape (u : ParsedUrl) (e : PyErr)
    (hval : validate_public_http_url u = .error e) : ∃ m, e = .fetchError m := by
  unfold validate_public_http_url at hval
  split at hval
  · exact ⟨_, by injection hval with h; exact h.symm⟩
  · split at hval
    · exact ⟨_, by injection hval with h; exact h.symm⟩
    · split at hval
      · exact ⟨_, by injection hval with h; exact h.symm⟩
      · cases hval

theorem validate_ok_hostTruthy (u : ParsedUrl)
    (hval : validate_public_http_url u = .ok ()) : hostTruthy u.hostname = true := by
  unfold validate_public_http_url at hval
  by_cases h1 : u.scheme ≠ "http" ∧ u.scheme ≠ "https"
  · rw [if_pos h1] at hval; cases hval
  · rw [if_neg h1] at hval
    by_cases h2 : ¬ hostTruthy u.hostname
    · rw [if_pos h2] at hval; cases hval
    · simpa using h2

/-- C1 (counterexample to the claim as stated): at the concrete URL
`http://example.com` with the single DNS answer `127.0.0.1`, the
resolve-and-block operation raises the repository's plain `FetchError`
class — the error taxonomy of `core/errors.py` has no distinct
`BlockedHostError` class, so the raised error is *not* distinct from a
plain fetch error. -/
theorem claim_C1_counterexample :
    resolve_and_block_private_hosts (fun _ => .ok [⟨.af_inet, "127.0.0.1"⟩])
        ⟨"http", some "example.com"⟩
      = .error (.fetchError "Blocked host example.com (resolves to private/internal IP)") ∧
    (PyErr.fetchError
      "Blocked host example.com (resolves to private/internal IP)").isFetchError = true :=
  ⟨rfl, rfl⟩

/-- C1 (amended): for every URL whose host's DNS resolution returns only
the address `127.0.0.1`, the resolve-and-block operation raises an error of
the `FetchError` class — the single fetch-error class of the taxonomy,
which is also what the SSRF guard uses — and it does so regardless of
whether the URL's scheme is valid. -/
theorem claim_C1_loopback_always_fetch_error (u : ParsedUrl) (dns : DnsFn)
    (hdns : ∀ host, dns host = .ok [⟨.af_inet, "127.0.0.1"⟩]) :
    ∃ m, resolve_and_block_private_hosts dns u = .error (.fetchError m) := by
  unfold resolve_and_block_private_hosts
  cases hval : validate_public_http_url u with
  | error e =>
    obtain ⟨m, rfl⟩ := validate_error_shape u e hval
    exact ⟨m, rfl⟩
  | ok uu =>
    cases uu
    have hht := validate_ok_hostTruthy u hval
    rw [if_neg (by simp [hht])]
    refine ⟨"Blocked host " ++ u.hostname.getD "" ++ " (resolves to private/internal IP)", ?_⟩
    simp only [hdns]
    rfl

/-- Witness for C1's amended theorem: an *invalid*-scheme URL whose DNS
would resolve only to `127.0.0.1` still raises a `FetchError`. -/
theorem claim_C1_loopback_always_fetch_error_witness :
    ∃ m, resolve_and_block_private_hosts (fun _ => .ok [⟨.af_inet, "127.0.0.1"⟩])
      ⟨"ftp", some "example.com"⟩ = .error (.fetchError m) :=
  claim_C1_loopback_always_fetch_error ⟨"ftp", some "example.com"⟩
    (fun _ => .ok [⟨.af_inet, "127.0.0.1"⟩]) (fun _ => rfl)

/-! ### HTTP fetch layer (C3) -/

theorem requestLoop_resp_no_retry (maxBytes : Nat) (be : Nat → TransportOutcome)
    (mr : Int) (verb : String) (fuel : Nat) (r : HttpResponse)
    (hbe : be 0 = .resp r) (hsize : r.content.length ≤ maxBytes) :
    requestLoop maxBytes be mr verb 0 (fuel + 1)
      = (.ok ⟨r.url, r.status_code, r.headers, r.content⟩, 1) := by
  simp only [requestLoop, Int.toNat_zero, hbe]
  rw [if_neg (by omega)]

theorem requestLoop_two_attempts (maxBytes : Nat) (be : Nat → TransportOutcome)
    (mr : Int) (verb : String) (fuel : Nat) (att : Int)
    (h2 : 2 ≤ (requestLoop maxBytes be mr verb att fuel).2) :
    ∃ e, be att.toNat = .exc e := by
  cases fuel with
  | zero => simp [requestLoop] at h2
  | succ n =>
    cases hbe : be att.toNat with
    | resp r =>
      simp only [requestLoop, hbe] at h2
      split at h2 <;> simp at h2
    | exc e => exact ⟨e, rfl⟩

/-- C3: for every GET or POST fetch whose first transport attempt yields an
HTTP response — in particular one with status code ≥ 400 — within the byte
cap, the fetch layer performs no retry (exactly one transport attempt) and
returns a normal `FetchResult` carrying that status code rather than
raising; and a retry (two or more attempts) can only follow a
transport-level failure of the first attempt. -/
theorem claim_C3_http_status_not_retried (s : HttpSettings) (dns : DnsFn)
    (u : ParsedUrl) (headers cookies : Option (List (String × String)))
    (body_present : Bool) (max_retries : Int) (backend : Backend) (r : HttpResponse)
    (hguard : s.block_private_networks = false ∨
      resolve_and_block_private_hosts dns u = .ok ())
    (hfirst : ∀ hdrs, backend hdrs 0 = .resp r)
    (hstatus : 400 ≤ r.status_code)
    (hsize : r.content.length ≤ s.http_max_bytes)
    (hmr : 0 ≤ max_retries) :
    get_bytes s dns u headers cookies max_retries backend
        = (.ok ⟨r.url, r.status_code, r.headers, r.content⟩, 1) ∧
    post_bytes s dns u headers body_present cookies max_retries backend
        = (.ok ⟨r.url, r.status_code, r.headers, r.content⟩, 1) ∧
    (∀ backend2 : Backend,
      2 ≤ (get_bytes s dns u headers cookies max_retries backend2).2 →
      ∃ hdrs e, backend2 hdrs 0 = .exc e) := by
  obtain ⟨k, hk⟩ : ∃ k, (max_retries + 1).toNat = k + 1 := ⟨(max_retries + 1).toNat - 1, by omega⟩
  have hget : ∀ backend2 : Backend,
      get_bytes s dns u headers cookies max_retries backend2
        = requestLoop s.http_max_bytes
            (backend2 (match build_cookie_header cookies with
              | some ch => dictSet (merged_headers headers) "Cookie" ch
              | none => merged_headers headers))
            max_retries "fetch" 0 (max_retries + 1).toNat := by
    intro backend2
    by_cases hb : s.block_private_networks
    · have hres : resolve_and_block_private_hosts dns u = .ok () := by
        rcases hguard with hg | hg
        · rw [hg] at hb; cases hb
        · exact hg
      simp [get_bytes, hb, hres]
    · simp [get_bytes, hb]
  refine ⟨?_, ?_, ?_⟩
  · rw [hget backend, hk]
    exact requestLoop_resp_no_retry _ _ _ _ k r (hfirst _) hsize
  · have hpost : post_bytes s dns u headers body_present cookies max_retries backend
        = requestLoop s.http_max_bytes
            (backend (match build_cookie_header cookies with
              | some ch => dictSet (if body_present ∧
                    ¬ dictContains (merged_headers headers) "Content-Type" = true then
                  dictSet (merged_headers headers) "Content-Type" "application/json"
                else merged_headers headers) "Cookie" ch
              | none => if body_present ∧
                    ¬ dictContains (merged_headers headers) "Content-Type" = true then
                  dictSet (merged_headers headers) "Content-Type" "application/json"
                else merged_headers headers))
            max_retries "POST" 0 (max_retries + 1).toNat := by
      by_cases hb : s.block_private_networks
      · have hres : resolve_and_block_private_hosts dns u = .ok () := by
          rcases hguard with hg | hg
          · rw [hg] at hb; cases hb
          · exact hg
        simp [post_bytes, hb, hres]
      · simp [post_bytes, hb]
    rw [hpost, hk]
    exact requestLoop_resp_no_retry _ _ _ _ k r (hfirst _) hsize
  · intro backend2 h2
    rw [hget backend2] at h2
    obtain ⟨e, he⟩ := requestLoop_two_attempts _ _ _ _ _ 0 h2
    exact ⟨_, e, he⟩

/-- Witness for C3 at a concrete input (a 404 response, no retry). -/
theorem claim_C3_http_status_not_retried_witness :
    get_bytes ⟨2000000, false⟩ (fun _ => .ok []) ⟨"http", some "h"⟩ none none 0
        (fun _ _ => .resp ⟨"u", 404, [], []⟩)
        = (.ok ⟨"u", 404, [], []⟩, 1) ∧
    post_bytes ⟨2000000, false⟩ (fun _ => .ok []) ⟨"http", some "h"⟩ none false none 0
        (fun _ _ => .resp ⟨"u", 404, [], []⟩)
        = (.ok ⟨"u", 404, [], []⟩, 1) ∧
    (∀ backend2 : Backend,
      2 ≤ (get_bytes ⟨2000000, false⟩ (fun _ => .ok []) ⟨"http", some "h"⟩ none none 0
        backend2).2 →
      ∃ hdrs e, backend2 hdrs 0 = .exc e) :=
  claim_C3_http_status_not_retried ⟨2000000, false⟩ (fun _ => .ok [])
    ⟨"http", some "h"⟩ none none false 0 (fun _ _ => .resp ⟨"u", 404, [], []⟩)
    ⟨"u", 404, [], []⟩ (.inl rfl) (fun _ => rfl) (by decide) (by decide) (by decide)

/-! ### Batch/identifier injector (C8) -/

/-- C8: `inject("42", "id", "https://x/{id}", {"id":"x"},
{"variables":{"id":"x"}})` returns URL `"https://x/42"`, query parameters
`{"id":"42"}`, and body `{"variables":{"id":"42"}}`: the identifier
replaces the token in the URL, the value at the named query key, and the
value under the nested `variables` object. -/
theorem claim_C8_inject_identifier :
    inject_identifier "42" "id" "https://x/\x7bid\x7d" [("id", .vStr "x")]
        (some [("variables", .obj [("id", .str "x")])])
      = ("https://x/42", [("id", .vStr "42")],
         some [("variables", .obj [("id", .str "42")])]) := rfl

/-! ### HTML extractor (C9, C7) -/

theorem extract_tables_all_empty : ∀ (tables : List HNode),
    (∀ t ∈ tables, tableRecords t = []) → extract_records_from_tables tables = [] := by
  have key : ∀ (tables : List HNode), (∀ t ∈ tables, tableRecords t = []) →
      ∀ (b : List HRecord) (n : Nat),
      tables.foldl (fun best table =>
        let records := tableRecords table
        if best.2 < records.length then (records, records.length) else best) (b, n)
        = (b, n) := by
    intro tables
    induction tables with
    | nil => intro _ b n; rfl
    | cons t ts ih =>
      intro htab b n
      have ht : tableRecords t = [] := htab t (by simp)
      simp only [List.foldl_cons, ht, List.length_nil]
      rw [if_neg (by omega)]
      exact ih (fun t' ht' => htab t' (by simp [ht'])) b n
  intro tables htab
  unfold extract_records_from_tables
  rw [key tables htab [] 0]

/-- C9: when the supplied selector matches no element, and likewise when no
selector is supplied and no table yields records, the HTML extract
operation returns an empty record list. (The embedded extraction functions
are total, so no exception is possible on these inputs.) -/
theorem claim_C9_html_extract_empty (select : String → List HNode)
    (tables : List HNode) (sel : String)
    (hsel : select (pyStrip sel) = [])
    (htab : ∀ t ∈ tables, tableRecords t = []) :
    extract_records_from_html select tables (some sel) = [] ∧
    extract_records_from_html select tables none = [] := by
  have htabs := extract_tables_all_empty tables htab
  constructor
  · simp only [extract_records_from_html]
    by_cases hcond : sel ≠ "" ∧ pyStrip sel ≠ ""
    · rw [if_pos hcond, hsel]; rfl
    · rw [if_neg hcond, htabs]; rfl
  · simp only [extract_records_from_html]
    rw [htabs]
    rfl

/-- Witness for C9 at a concrete input: a selector matching nothing and a
document whose only table has no rows. -/
theorem claim_C9_html_extract_empty_witness :
    extract_records_from_html (fun _ => []) [.elem "table" [] []] (some ".x") = [] ∧
    extract_records_from_html (fun _ => []) [.elem "table" [] []] none = [] :=
  claim_C9_html_extract_empty (fun _ => []) [.elem "table" [] []] ".x" rfl
    (by intro t ht; simp at ht; subst ht; rfl)

/-- Keys of a dictionary are pairwise distinct. -/
def keysNodup {α : Type} (d : List (String × α)) : Prop :=
  (d.map Prod.fst).Nodup

theorem dictContains_iff_mem {α : Type} (d : List (String × α)) (k : String) :
    dictContains d k = true ↔ k ∈ d.map Prod.fst := by
  induction d with
  | nil => simp [dictContains, dictGet]
  | cons p rest ih =>
    by_cases hp : p.1 = k
    · simp [dictContains, dictGet, hp]
    · simp only [dictContains, dictGet, hp, if_false, List.map_cons, List.mem_cons]
      constructor
      · intro h
        exact Or.inr (ih.mp h)
      · rintro (h | h)
        · exact absurd h.symm hp
        · exact ih.mpr h

theorem keys_dictSet {α : Type} (d : List (String × α)) (k : String) (v : α) :
    (dictSet d k v).map Prod.fst =
      if dictContains d k then d.map Prod.fst else d.map Prod.fst ++ [k] := by
  induction d with
  | nil => simp [dictSet, dictContains, dictGet]
  | cons p rest ih =>
    by_cases hp : p.1 = k
    · simp [dictSet, dictContains, dictGet, hp]
    · have hcd : dictContains (p :: rest) k = dictContains rest k := by
        simp [dictContains, dictGet, hp]
      simp only [dictSet, hp, if_false, List.map_cons, ih, hcd]
      by_cases hc : dictContains rest k
      · simp [hc]
      · simp [hc]

theorem keysNodup_dictSet {α : Type} (d : List (String × α)) (k : String) (v : α)
    (hd : keysNodup d) : keysNodup (dictSet d k v) := by
  unfold keysNodup at hd ⊢
  rw [keys_dictSet]
  by_cases hc : dictContains d k
  · simpa [hc] using hd
  · rw [if_neg hc]
    have hk : k ∉ d.map Prod.fst := fun hmem =>
      hc ((dictContains_iff_mem d k).mpr hmem)
    rw [List.nodup_append]
    refine ⟨hd, List.nodup_singleton k, ?_⟩
    intro a ha hb
    simp only [List.mem_singleton] at hb
    subst hb
    exact hk ha

theorem dictContains_dictPop_self {α : Type} :
    ∀ (d : List (String × α)) (k : String), keysNodup d →
      dictContains (dictPop d k) k = false := by
  intro d
  induction d with
  | nil => intro k _; rfl
  | cons p rest ih =>
    intro k hd
    have hd' : keysNodup rest := by
      unfold keysNodup at hd ⊢
      exact (List.nodup_cons.mp hd).2
    by_cases hp : p.1 = k
    · simp only [dictPop, hp, if_true]
      have hk : k ∉ rest.map Prod.fst := by
        have := (List.nodup_cons.mp hd).1
        rwa [hp] at this
      by_cases hc : dictContains rest k
      · exact absurd ((dictContains_iff_mem rest k).mp hc) hk
      · simpa using hc
    · simp only [dictPop, hp, if_false, dictContains, dictGet]
      exact ih k hd'

theorem foldl_preserves {α β : Type} (P : α → Prop) (step : α → β → α)
    (hstep : ∀ d x, P d → P (step d x)) :
    ∀ (l : List β) (d : α), P d → P (l.foldl step d) := by
  intro l
  induction l with
  | nil => intro d hd; exact hd
  | cons x xs ih => intro d hd; exact ih _ (hstep d x hd)

theorem keysNodup_strat1 (e : HNode) (d : HRecord) (hd : keysNodup d) :
    keysNodup (strat1 e d) := by
  unfold strat1
  dsimp only
  repeat' first
    | split
    | apply keysNodup_dictSet
    | exact hd

theorem keysNodup_strat2Cls (child : HNode) (d : HRecord) (cls : String)
    (hd : keysNodup d) : keysNodup (strat2Cls child d cls) := by
  unfold strat2Cls
  dsimp only
  repeat' first
    | split
    | apply keysNodup_dictSet
    | exact hd

theorem keysNodup_strat3Step (d : HRecord) (av : String × AttrVal)
    (hd : keysNodup d) : keysNodup (strat3Step d av) := by
  unfold strat3Step
  dsimp only
  repeat' first
    | split
    | apply keysNodup_dictSet
    | exact hd

theorem keysNodup_strat4 (e : HNode) (d : HRecord) (hd : keysNodup d) :
    keysNodup (strat4 e d) := by
  unfold strat4
  dsimp only
  repeat' first
    | split
    | apply keysNodup_dictSet
    | exact hd

/-- Every record the selector extractor builds (before the index drop) has
pairwise-distinct keys: it starts from the singleton `_index` dictionary
and grows only through `d[k] = v` assignments. -/
theorem keysNodup_buildRecordPre (idx : Nat) (e : HNode) :
    keysNodup (buildRecordPre idx e) := by
  unfold buildRecordPre
  apply keysNodup_strat4
  apply foldl_preserves keysNodup strat3Step (fun d x hd => keysNodup_strat3Step d x hd)
  apply foldl_preserves keysNodup
    (fun record child => (classList child).foldl (strat2Cls child) record)
    (fun d c hd =>
      foldl_preserves keysNodup (strat2Cls c)
        (fun d' x hd' => keysNodup_strat2Cls c d' x hd') (classList c) d hd)
  apply keysNodup_strat1
  simp [keysNodup]

/-- C7 (counterexample to the claim as stated): a matched element whose
derived record is exactly `{_index, title}` — containing the real field
`title` — keeps the positional index key (the code drops `_index` only
when the record has more than two entries), while the claim requires the
index to be dropped as soon as one real field exists. -/
theorem claim_C7_counterexample :
    extract_records_with_selector
        [.elem "div" [] [.elem "span" [("class", .l ["title"])] [.text "Hello"]]]
      = [[("_index", .vInt 1), ("title", .vStr "Hello")]] ∧
    dictContains [("_index", PyVal.vInt 1), ("title", PyVal.vStr "Hello")] "_index"
      = true ∧
    ("title" ∈ ([("_index", PyVal.vInt 1), ("title", PyVal.vStr "Hello")] : HRecord).map
        Prod.fst ∧
      "title" ∉ metaKeys) :=
  ⟨rfl, rfl, by decide, by decide⟩

/-- C7 (amended): in HTML selector extraction the positional `_index` key
is dropped exactly when the element's derived record holds more than two
entries before the drop; hence (i) a record with more than two entries —
in particular one real field plus any second non-index field — never
carries `_index` in the output, and (ii) every emitted record that still
carries `_index` has at most two entries, i.e. at most one field besides
the index. -/
theorem claim_C7_index_drop :
    (∀ (idx : Nat) (e : HNode), 2 < (buildRecordPre idx e).length →
      dictContains (buildRecord idx e) "_index" = false) ∧
    (∀ (elements : List HNode) (r : HRecord),
      r ∈ extract_records_with_selector elements →
      dictContains r "_index" = true → r.length ≤ 2) := by
  have hdrop : ∀ (idx : Nat) (e : HNode), 2 < (buildRecordPre idx e).length →
      dictContains (buildRecord idx e) "_index" = false := by
    intro idx e hlen
    unfold buildRecord
    rw [if_pos hlen]
    exact dictContains_dictPop_self (buildRecordPre idx e) "_index"
      (keysNodup_buildRecordPre idx e)
  refine ⟨hdrop, ?_⟩
  intro elements r hmem hidx
  unfold extract_records_with_selector at hmem
  by_cases hne : elements.isEmpty
  · rw [if_pos hne] at hmem
    cases hmem
  · rw [if_neg hne] at hmem
    obtain ⟨ie, hie, hr⟩ := List.mem_flatMap.mp hmem
    unfold emitRecord at hr
    split at hr
    · simp only [List.mem_singleton] at hr
      subst hr
      by_cases hlen : 2 < (buildRecordPre ie.1 ie.2).length
      · rw [hdrop ie.1 ie.2 hlen] at hidx
        cases hidx
      · unfold buildRecord
        rw [if_neg hlen]
        omega
    · cases hr

/-- Witness for C7's amended theorem: an element with two real fields has
the index dropped, and the concrete emitted `{_index, title}` record (one
real field) indeed has only two entries. -/
theorem claim_C7_index_drop_witness :
    dictContains (buildRecord 0 (.elem "div" []
      [.elem "span" [("class", .l ["title"])] [.text "A"],
       .elem "span" [("class", .l ["price"])] [.text "B"]])) "_index" = false ∧
    ([("_index", PyVal.vInt 1), ("title", PyVal.vStr "Hello")] : HRecord).length ≤ 2 :=
  ⟨claim_C7_index_drop.1 0 (.elem "div" []
      [.elem "span" [("class", .l ["title"])] [.text "A"],
       .elem "span" [("class", .l ["price"])] [.text "B"]]) (by decide),
   claim_C7_index_drop.2
     [.elem "div" [] [.elem "span" [("class", .l ["title"])] [.text "Hello"]]]
     [("_index", PyVal.vInt 1), ("title", PyVal.vStr "Hello")] (by decide) rfl⟩

/-! ### JSON BFS (C4) -/

theorem bfsLoop_eq_foldl : ∀ (fuel : Nat) (queue : List (Json × String))
    (best : Option JsonRecordsResult),
    bfsLoop queue fuel best = (bfsCands queue fuel).foldl bestStep best := by
  intro fuel
  induction fuel with
  | zero => intro queue best; cases queue <;> rfl
  | succ n ih =>
    intro queue best
    cases queue with
    | nil => rfl
    | cons qp rest =>
      obtain ⟨node, path⟩ := qp
      by_cases hlor : is_list_of_records node
      · simp only [bfsLoop, bfsCands, hlor, if_true, List.foldl_cons]
        exact ih rest (bestStep best ⟨listElems node, path⟩)
      · simp only [bfsLoop, bfsCands, hlor, if_false]
        exact ih (rest ++ bfsChildren node path) best

theorem foldBest_spec : ∀ (cands : List JsonRecordsResult)
    (b : Option JsonRecordsResult) (r : JsonRecordsResult),
    cands.foldl bestStep b = some r →
    (∀ c ∈ cands, c.records.length ≤ r.records.length) ∧
    (b = some r ∨ ∃ pre post, cands = pre ++ r :: post ∧
      (∀ c ∈ pre, c.records.length < r.records.length) ∧
      (∀ b0, b = some b0 → b0.records.length < r.records.length)) := by
  intro cands
  induction cands with
  | nil =>
    intro b r hfold
    exact ⟨by simp, Or.inl hfold⟩
  | cons c cs ih =>
    intro b r hfold
    rw [List.foldl_cons] at hfold
    obtain ⟨ihA, ihB⟩ := ih (bestStep b c) r hfold
    by_cases hcond :
        (b.isNone || (b.getD ⟨[], ""⟩).records.length < c.records.length) = true
    · have hstep : bestStep b c = some c := by unfold bestStep; rw [if_pos hcond]
      rw [hstep] at ihB
      cases ihB with
      | inl hcr =>
        have hcr' : c = r := Option.some.inj hcr
        subst hcr'
        refine ⟨?_, Or.inr ⟨[], cs, rfl, by simp, ?_⟩⟩
        · intro x hx
          rcases List.mem_cons.mp hx with hx | hx
          · subst hx; exact Nat.le_refl _
          · exact ihA x hx
        · intro b0 hb0
          subst hb0
          simp only [Option.isNone_some, Bool.false_or, Option.getD_some, decide_eq_true_eq] at hcond
          exact hcond
      | inr h =>
        obtain ⟨pre, post, hcs, hpre, hb0⟩ := h
        have hclen : c.records.length < r.records.length := hb0 c rfl
        refine ⟨?_, Or.inr ⟨c :: pre, post, by rw [hcs, List.cons_append], ?_, ?_⟩⟩
        · intro x hx
          rcases List.mem_cons.mp hx with hx | hx
          · subst hx; exact Nat.le_of_lt hclen
          · exact ihA x hx
        · intro x hx
          rcases List.mem_cons.mp hx with hx | hx
          · subst hx; exact hclen
          · exact hpre x hx
        · intro b0 hb0'
          subst hb0'
          simp only [Option.isNone_some, Bool.false_or, Option.getD_some, decide_eq_true_eq] at hcond
          exact Nat.lt_trans hcond hclen
    · have hstep : bestStep b c = b := by unfold bestStep; rw [if_neg hcond]
      rw [hstep] at ihB
      have hb : ∃ b0, b = some b0 := by
        cases hb' : b with
        | none => rw [hb'] at hcond; simp at hcond
        | some b0 => exact ⟨b0, rfl⟩
      obtain ⟨b0, hb0eq⟩ := hb
      have hcle : c.records.length ≤ b0.records.length := by
        rw [hb0eq] at hcond
        simp only [Option.isNone_some, Bool.false_or, Option.getD_some, decide_eq_true_eq] at hcond
        omega
      cases ihB with
      | inl hbr =>
        have hb0r : b0 = r := by rw [hb0eq] at hbr; exact Option.some.inj hbr
        subst hb0r
        refine ⟨?_, Or.inl hbr⟩
        intro x hx
        rcases List.mem_cons.mp hx with hx | hx
        · subst hx; exact hcle
        · exact ihA x hx
      | inr h =>
        obtain ⟨pre, post, hcs, hpre, hb0lt⟩ := h
        have hblt : b0.records.length < r.records.length := hb0lt b0 hb0eq
        refine ⟨?_, Or.inr ⟨c :: pre, post, by rw [hcs, List.cons_append], ?_, ?_⟩⟩
        · intro x hx
          rcases List.mem_cons.mp hx with hx | hx
          · subst hx; exact Nat.le_of_lt (Nat.lt_of_le_of_lt hcle hblt)
          · exact ihA x hx
        · intro x hx
          rcases List.mem_cons.mp hx with hx | hx
          · subst hx; exact Nat.lt_of_le_of_lt hcle hblt
          · exact hpre x hx
        · intro b1 hb1
          exact hb0lt b1 hb1

/-- C4: whenever the bounded BFS of the JSON extractor returns a record
list (the root itself not being a list of records), `extract_records_from_json`
returns exactly that result; its length is ≥ the length of every other
array-of-objects visited within the traversal bound (dicts expanded over
all keys, arrays over their first 50 elements, at most 500 visited nodes);
and it is the first candidate of maximal length in breadth-first discovery
order — every earlier-discovered candidate is strictly shorter. -/
theorem claim_C4_bfs_best (payload : Json) (r : JsonRecordsResult)
    (hroot : is_list_of_records payload = false)
    (hbfs : bfsBest payload = some r) :
    extract_records_from_json payload = some r ∧
    (∀ c ∈ bfsCandidates payload, c.records.length ≤ r.records.length) ∧
    ∃ pre post, bfsCandidates payload = pre ++ r :: post ∧
      ∀ c ∈ pre, c.records.length < r.records.length := by
  have hfold : (bfsCandidates payload).foldl bestStep none = some r := by
    rw [bfsCandidates, ← bfsLoop_eq_foldl]
    exact hbfs
  obtain ⟨hA, hB⟩ := foldBest_spec (bfsCandidates payload) none r hfold
  have hdl : isDictOrList payload = true := by
    cases payload with
    | obj kvs => rfl
    | arr xs => rfl
    | null => simp [bfsBest, bfsLoop, bfsChildren, is_list_of_records] at hbfs
    | bool b => simp [bfsBest, bfsLoop, bfsChildren, is_list_of_records] at hbfs
    | num n => simp [bfsBest, bfsLoop, bfsChildren, is_list_of_records] at hbfs
    | str s => simp [bfsBest, bfsLoop, bfsChildren, is_list_of_records] at hbfs
  refine ⟨?_, hA, ?_⟩
  · unfold extract_records_from_json
    rw [if_neg (by simp [hroot]), if_neg (by simp [hdl]), hbfs]
  · cases hB with
    | inl h => cases h
    | inr h =>
      obtain ⟨pre, post, hc, hpre, _⟩ := h
      exact ⟨pre, post, hc, hpre⟩

/-- Witness for C4 at a concrete payload: `{"items": [{...}, {...}]}`. -/
theorem claim_C4_bfs_best_witness :
    extract_records_from_json
        (.obj [("items", .arr [.obj [("a", .num 1)], .obj [("b", .num 2)]])])
      = some ⟨[.obj [("a", .num 1)], .obj [("b", .num 2)]], "$.items"⟩ ∧
    (∀ c ∈ bfsCandidates
        (.obj [("items", .arr [.obj [("a", .num 1)], .obj [("b", .num 2)]])]),
      c.records.length ≤
        (⟨[.obj [("a", .num 1)], .obj [("b", .num 2)]], "$.items"⟩ :
          JsonRecordsResult).records.length) ∧
    ∃ pre post, bfsCandidates
        (.obj [("items", .arr [.obj [("a", .num 1)], .obj [("b", .num 2)]])])
      = pre ++ (⟨[.obj [("a", .num 1)], .obj [("b", .num 2)]], "$.items"⟩ :
          JsonRecordsResult) :: post ∧
      ∀ c ∈ pre, c.records.length <
        (⟨[.obj [("a", .num 1)], .obj [("b", .num 2)]], "$.items"⟩ :
          JsonRecordsResult).records.length :=
  claim_C4_bfs_best
    (.obj [("items", .arr [.obj [("a", .num 1)], .obj [("b", .num 2)]])])
    ⟨[.obj [("a", .num 1)], .obj [("b", .num 2)]], "$.items"⟩ rfl rfl

/-! ### Field matcher (C6) -/

theorem dictGet_mem {α : Type} :
    ∀ (d : List (String × α)) (k : String) (v : α),
      dictGet d k = some v → (k, v) ∈ d := by
  intro d
  induction d with
  | nil => intro k v h; cases h
  | cons p rest ih =>
    intro k v h
    by_cases hp : p.1 = k
    · simp only [dictGet, hp, if_true] at h
      have : p = (k, v) := by
        obtain ⟨p1, p2⟩ := p
        simp only at hp
        injection h with h2
        simp only at h2
        rw [hp, h2]
      rw [← this]
      exact List.mem_cons_self p rest
    · simp only [dictGet, hp, if_false] at h
      exact List.mem_cons_of_mem p (ih k v h)

theorem dictGet_of_mem_nodup {α : Type} :
    ∀ (d : List (String × α)) (k : String) (v : α), keysNodup d →
      (k, v) ∈ d → dictGet d k = some v := by
  intro d
  induction d with
  | nil => intro k v _ h; cases h
  | cons p rest ih =>
    intro k v hnd h
    have hnd' : keysNodup rest := (List.nodup_cons.mp hnd).2
    rcases List.mem_cons.mp h with h | h
    · rw [← h]
      simp [dictGet]
    · have hk : k ∈ rest.map Prod.fst := by
        have := List.mem_map_of_mem Prod.fst h
        simpa using this
      have hp : p.1 ≠ k := by
        intro hh
        exact (List.nodup_cons.mp hnd).1 (hh ▸ hk)
      simp only [dictGet, hp, if_false]
      exact ih k v hnd' h

theorem mem_dictSet_nodup {α : Type} :
    ∀ (d : List (String × α)) (k : String) (v : α) (p : String × α), keysNodup d →
      p ∈ dictSet d k v → p = (k, v) ∨ (p ∈ d ∧ p.1 ≠ k) := by
  intro d
  induction d with
  | nil =>
    intro k v p _ h
    simp only [dictSet, List.mem_singleton] at h
    exact Or.inl h
  | cons q rest ih =>
    intro k v p hnd h
    have hnd' : keysNodup rest := (List.nodup_cons.mp hnd).2
    by_cases hq : q.1 = k
    · simp only [dictSet, hq, if_true] at h
      rcases List.mem_cons.mp h with h | h
      · exact Or.inl h
      · refine Or.inr ⟨List.mem_cons_of_mem q h, ?_⟩
        intro hh
        apply (List.nodup_cons.mp hnd).1
        rw [hq]
        have := List.mem_map_of_mem Prod.fst h
        simpa [hh] using this
    · simp only [dictSet, hq, if_false] at h
      rcases List.mem_cons.mp h with h | h
      · exact Or.inr ⟨h ▸ List.mem_cons_self q rest, h ▸ hq⟩
      · rcases ih k v p hnd' h with h | ⟨h1, h2⟩
        · exact Or.inl h
        · exact Or.inr ⟨List.mem_cons_of_mem q h1, h2⟩

theorem dictGet_append {α : Type} :
    ∀ (d1 d2 : List (String × α)) (k : String),
      dictGet (d1 ++ d2) k =
        match dictGet d1 k with
        | some v => some v
        | none => dictGet d2 k := by
  intro d1
  induction d1 with
  | nil => intro d2 k; rfl
  | cons p rest ih =>
    intro d2 k
    by_cases hp : p.1 = k <;> simp [dictGet, hp, ih]

/-- The final `matched` dictionary of the matching loop maps each key that
occurs among the processed requests to the value the loop computes for it
(`valueFor`), leaving other keys untouched. -/
theorem matchReqLoop_get (ntoa : List (String × String)) :
    ∀ (reqs : List String) (matched : List (String × String))
      (unmatched : List String) (k : String),
      dictGet (matchReqLoop ntoa matched unmatched reqs).1 k =
        match valueFor ntoa k with
        | some v => if k ∈ reqs then some v else dictGet matched k
        | none => dictGet matched k := by
  intro reqs
  induction reqs with
  | nil =>
    intro matched unmatched k
    cases hv : valueFor ntoa k <;> simp [matchReqLoop]
  | cons req rest ih =>
    intro matched unmatched k
    by_cases hk : k = req
    · subst hk
      by_cases hrn : normalize_field_name k = ""
      · have hv : valueFor ntoa k = none := by simp [valueFor, hrn]
        simp only [matchReqLoop, hrn, if_true]
        rw [ih, hv]
      · cases hex : dictGet ntoa (normalize_field_name k) with
        | some actual =>
          have hv : valueFor ntoa k = some actual := by simp [valueFor, hrn, hex]
          simp only [matchReqLoop, hrn, if_false, hex]
          rw [ih, hv]
          simp only [List.mem_cons, true_or, if_true]
          by_cases hkr : k ∈ rest
          · simp [hkr]
          · simp [hkr, dictGet_dictSet_self]
        | none =>
          cases hfind : ntoa.find? (partialMatchPred (normalize_field_name k)) with
          | some p =>
            have hv : valueFor ntoa k = some p.2 := by simp [valueFor, hrn, hex, hfind]
            simp only [matchReqLoop, hrn, if_false, hex, hfind]
            rw [ih, hv]
            simp only [List.mem_cons, true_or, if_true]
            by_cases hkr : k ∈ rest
            · simp [hkr]
            · simp [hkr, dictGet_dictSet_self]
          | none =>
            have hv : valueFor ntoa k = none := by simp [valueFor, hrn, hex, hfind]
            simp only [matchReqLoop, hrn, if_false, hex, hfind]
            rw [ih, hv]
    · have hmemiff : (k ∈ req :: rest) = (k ∈ rest) := by simp [List.mem_cons, hk]
      by_cases hrn : normalize_field_name req = ""
      · simp only [matchReqLoop, hrn, if_true]
        rw [ih]
        cases hv : valueFor ntoa k
        · rfl
        · simp only [hmemiff]
      · cases hex : dictGet ntoa (normalize_field_name req) with
        | some actual =>
          simp only [matchReqLoop, hrn, if_false, hex]
          rw [ih]
          have hgd : dictGet (dictSet matched req actual) k = dictGet matched k :=
            dictGet_dictSet_ne matched req k actual (fun h => hk h.symm)
          cases hv : valueFor ntoa k
          · exact hgd
          · simp only [hmemiff]
            by_cases hkr : k ∈ rest
            · simp [hkr]
            · simp [hkr, hgd]
        | none =>
          cases hfind : ntoa.find? (partialMatchPred (normalize_field_name req)) with
          | some p =>
            simp only [matchReqLoop, hrn, if_false, hex, hfind]
            rw [ih]
            have hgd : dictGet (dictSet matched req p.2) k = dictGet matched k :=
              dictGet_dictSet_ne matched req k p.2 (fun h => hk h.symm)
            cases hv : valueFor ntoa k
            · exact hgd
            · simp only [hmemiff]
              by_cases hkr : k ∈ rest
              · simp [hkr]
              · simp [hkr, hgd]
          | none =>
            simp only [matchReqLoop, hrn, if_false, hex, hfind]
            rw [ih]
            cases hv : valueFor ntoa k
            · rfl
            · simp only [hmemiff]

/-- Invariant of the `normalized_to_actual` construction (`field_filter.py`
lines 69-74): keys stay distinct; every entry maps a normalized form to a
field of the processed prefix that bears that normalized form and is no
longer than any processed field bearing it; and every processed field's
normalized form is a key of the map. -/
theorem buildNTA_inv :
    ∀ (fields : List String) (m : List (String × String)) (seen : List String),
      keysNodup m →
      (∀ p ∈ m, normalize_field_name p.2 = p.1 ∧ p.2 ∈ seen ∧
        ∀ f ∈ seen, normalize_field_name f = p.1 → p.2.length ≤ f.length) →
      (∀ f ∈ seen, dictContains m (normalize_field_name f) = true) →
      keysNodup (buildNTA m fields) ∧
      (∀ p ∈ buildNTA m fields, normalize_field_name p.2 = p.1 ∧
        p.2 ∈ seen ++ fields ∧
        ∀ f ∈ seen ++ fields, normalize_field_name f = p.1 →
          p.2.length ≤ f.length) ∧
      (∀ f ∈ seen ++ fields, dictContains (buildNTA m fields)
        (normalize_field_name f) = true) := by
  intro fields
  induction fields with
  | nil =>
    intro m seen hnd hent hcov
    simp only [buildNTA, List.append_nil]
    exact ⟨hnd, hent, hcov⟩
  | cons f rest ih =>
    intro m seen hnd hent hcov
    have hsr : seen ++ f :: rest = (seen ++ [f]) ++ rest := by simp
    have hcontains_of_mem : ∀ p ∈ m, dictContains m p.1 = true := by
      intro p hp
      refine (dictContains_iff_mem m p.1).mpr ?_
      simpa using List.mem_map_of_mem Prod.fst hp
    rw [hsr]
    cases hget : dictGet m (normalize_field_name f) with
    | none =>
      have hm' : buildNTA m (f :: rest) =
          buildNTA (m ++ [(normalize_field_name f, f)]) rest := by
        simp only [buildNTA, hget]
      have hnotmem : ∀ p ∈ m, p.1 ≠ normalize_field_name f := by
        intro p hp hh
        have := hcontains_of_mem p hp
        rw [hh] at this
        simp [dictContains, hget] at this
      rw [hm']
      apply ih
      · unfold keysNodup
        rw [List.map_append, List.nodup_append]
        refine ⟨hnd, by simp, ?_⟩
        intro a ha hb
        simp only [List.map_cons, List.map_nil, List.mem_singleton] at hb
        subst hb
        obtain ⟨p, hp, hpa⟩ := List.mem_map.mp ha
        exact hnotmem p hp hpa
      · intro p hp
        rcases List.mem_append.mp hp with hpm | hpn
        · obtain ⟨hn, hmem, hmin⟩ := hent p hpm
          refine ⟨hn, List.mem_append_left _ hmem, ?_⟩
          intro g hg hgn
          rcases List.mem_append.mp hg with hg2 | hg2
          · exact hmin g hg2 hgn
          · have hgf : g = f := by simpa using hg2
            rw [hgf] at hgn
            exact (hnotmem p hpm hgn.symm).elim
        · have hpeq : p = (normalize_field_name f, f) := by simpa using hpn
          subst hpeq
          refine ⟨rfl, by simp, ?_⟩
          intro g hg hgn
          rcases List.mem_append.mp hg with hg2 | hg2
          · exfalso
            have := hcov g hg2
            rw [hgn] at this
            simp [dictContains, hget] at this
          · have hgf : g = f := by simpa using hg2
            rw [hgf]
      · intro g hg
        rcases List.mem_append.mp hg with hg | hg
        · have := hcov g hg
          simp only [dictContains] at this ⊢
          rw [dictGet_append]
          cases hgg : dictGet m (normalize_field_name g) with
          | none => rw [hgg] at this; simp at this
          | some v => simp [hgg]
        · simp only [List.mem_singleton] at hg
          subst hg
          simp only [dictContains]
          rw [dictGet_append, hget]
          simp [dictGet]
    | some cur =>
      have hcurmem : (normalize_field_name f, cur) ∈ m :=
        dictGet_mem m (normalize_field_name f) cur hget
      obtain ⟨hcn, hcmem, hcmin⟩ := hent _ hcurmem
      by_cases hlt : f.length < cur.length
      · have hm' : buildNTA m (f :: rest) =
            buildNTA (dictSet m (normalize_field_name f) f) rest := by
          simp only [buildNTA, hget, hlt, if_true]
        rw [hm']
        apply ih
        · exact keysNodup_dictSet m _ f hnd
        · intro p hp
          rcases mem_dictSet_nodup m _ f p hnd hp with hpeq | ⟨hpm, hpne⟩
          · subst hpeq
            refine ⟨rfl, by simp, ?_⟩
            intro g hg hgn
            rcases List.mem_append.mp hg with hg2 | hg2
            · exact Nat.le_of_lt (Nat.lt_of_lt_of_le hlt (hcmin g hg2 hgn))
            · have hgf : g = f := by simpa using hg2
              rw [hgf]
          · obtain ⟨hn, hmem, hmin⟩ := hent p hpm
            refine ⟨hn, List.mem_append_left _ hmem, ?_⟩
            intro g hg hgn
            rcases List.mem_append.mp hg with hg2 | hg2
            · exact hmin g hg2 hgn
            · have hgf : g = f := by simpa using hg2
              rw [hgf] at hgn
              exact (hpne hgn.symm).elim
        · intro g hg
          rcases List.mem_append.mp hg with hg2 | hg2
          · have := hcov g hg2
            refine (dictContains_iff_mem _ _).mpr ?_
            have hcm : dictContains m (normalize_field_name f) = true := by
              simp [dictContains, hget]
            rw [keys_dictSet, if_pos hcm]
            exact (dictContains_iff_mem _ _).mp this
          · have hgf : g = f := by simpa using hg2
            rw [hgf]
            simp [dictContains, dictGet_dictSet_self]
      · have hm' : buildNTA m (f :: rest) = buildNTA m rest := by
          simp only [buildNTA, hget, hlt, if_false]
        rw [hm']
        apply ih
        · exact hnd
        · intro p hp
          obtain ⟨hn, hmem, hmin⟩ := hent p hp
          refine ⟨hn, List.mem_append_left _ hmem, ?_⟩
          intro g hg hgn
          rcases List.mem_append.mp hg with hg2 | hg2
          · exact hmin g hg2 hgn
          · have hgf : g = f := by simpa using hg2
            rw [hgf] at hgn
            have hpc : dictGet m p.1 = some p.2 := by
              have := dictGet_of_mem_nodup m p.1 p.2 hnd (by simpa using hp)
              simpa using this
            rw [← hgn, hget] at hpc
            have hc2 : p.2 = cur := by injection hpc with h; exact h.symm
            rw [hgf, hc2]
            omega
        · intro g hg
          rcases List.mem_append.mp hg with hg2 | hg2
          · exact hcov g hg2
          · have hgf : g = f := by simpa using hg2
            rw [hgf]
            simp [dictContains, hget]

/-- C6 (counterexample to the claim as stated): with available fields
`a--zz`, `ab`, `azz` — where `a--zz` and `azz` share the normalized form
`azz` and the shorter `azz` replaces `a--zz` as the map's representative —
and the request `"a"` (no exact match), the matcher returns `azz`, while
the claim's rule (the first field, in alphabetical order of actual field
names, whose normalized form contains the request's normalized form or is
contained in it) selects `a--zz`. -/
theorem claim_C6_counterexample :
    (match_requested_fields
        [[("a--zz", PyVal.vStr ""), ("ab", PyVal.vStr ""), ("azz", PyVal.vStr "")]]
        ["a"]).matched_fields = [("a", "azz")] ∧
    specClaimFallback
        (match_requested_fields
          [[("a--zz", PyVal.vStr ""), ("ab", PyVal.vStr ""), ("azz", PyVal.vStr "")]]
          ["a"]).all_available_fields
        (normalize_field_name "a") = some "a--zz" ∧
    dictGet (buildNTA [] (sortedFieldSet
        [[("a--zz", PyVal.vStr ""), ("ab", PyVal.vStr ""), ("azz", PyVal.vStr "")]]))
      (normalize_field_name "a") = none ∧
    ("azz" : String) ≠ "a--zz" :=
  ⟨rfl, rfl, rfl, by decide⟩

/-- C6 (amended): for every record set and requested-field list, each
requested field that does not normalize to empty is first tried as an
exact match on the normalized→actual map; failing that, the matcher
accepts the value of the *first entry of that map* whose normalized key
contains the request's normalized form or is contained in it. The map is
keyed by the distinct normalized forms of the available fields, and each
key's value is an available field bearing that normalized form whose
length is minimal among all such fields — not necessarily the
alphabetically first matching field. -/
theorem claim_C6_field_matching (records : List (List (String × PyVal)))
    (requested : List String) (req : String)
    (hmem : req ∈ requested) (hrn : normalize_field_name req ≠ "") :
    (∀ a, dictGet (buildNTA [] (sortedFieldSet records))
        (normalize_field_name req) = some a →
      dictGet (match_requested_fields records requested).matched_fields req
        = some a) ∧
    (dictGet (buildNTA [] (sortedFieldSet records))
        (normalize_field_name req) = none →
      dictGet (match_requested_fields records requested).matched_fields req =
        ((buildNTA [] (sortedFieldSet records)).find?
          (partialMatchPred (normalize_field_name req))).map Prod.snd) ∧
    (∀ p ∈ buildNTA [] (sortedFieldSet records),
      normalize_field_name p.2 = p.1 ∧ p.2 ∈ sortedFieldSet records ∧
      ∀ f ∈ sortedFieldSet records, normalize_field_name f = p.1 →
        p.2.length ≤ f.length) := by
  have hinv := buildNTA_inv (sortedFieldSet records) [] []
    (by simp [keysNodup]) (by simp) (by simp)
  obtain ⟨-, hent, -⟩ := hinv
  cases records with
  | nil =>
    refine ⟨?_, ?_, ?_⟩
    · intro a h
      simp [sortedFieldSet, dedupFirst, dedupAux, pySorted, buildNTA, dictGet] at h
    · intro _
      rfl
    · intro p hp
      simp [sortedFieldSet, dedupFirst, dedupAux, pySorted, buildNTA] at hp
  | cons r0 rs =>
    have hre : (r0 :: rs).isEmpty = false := rfl
    have hmf : (match_requested_fields (r0 :: rs) requested).matched_fields =
        (matchReqLoop (buildNTA [] (sortedFieldSet (r0 :: rs))) [] [] requested).1 := by
      simp only [match_requested_fields, hre, Bool.false_eq_true, if_false]
    have hloop := matchReqLoop_get (buildNTA [] (sortedFieldSet (r0 :: rs)))
      requested [] [] req
    refine ⟨?_, ?_, ?_⟩
    · intro a hex
      have hv : valueFor (buildNTA [] (sortedFieldSet (r0 :: rs))) req = some a := by
        simp [valueFor, hrn, hex]
      rw [hmf, hloop, hv]
      simp [hmem]
    · intro hex
      cases hfind : (buildNTA [] (sortedFieldSet (r0 :: rs))).find?
          (partialMatchPred (normalize_field_name req)) with
      | some p =>
        have hv : valueFor (buildNTA [] (sortedFieldSet (r0 :: rs))) req
            = some p.2 := by
          simp [valueFor, hrn, hex, hfind]
        rw [hmf, hloop, hv]
        simp [hmem]
      | none =>
        have hv : valueFor (buildNTA [] (sortedFieldSet (r0 :: rs))) req = none := by
          simp [valueFor, hrn, hex, hfind]
        rw [hmf, hloop, hv]
        rfl
    · intro p hp
      have := hent p hp
      simpa using this

/-- Witness for C6's amended theorem: requesting `company_name` against a
record with field `Company Name` (an exact normalized match). -/
theorem claim_C6_field_matching_witness :
    (∀ a, dictGet (buildNTA [] (sortedFieldSet [[("Company Name", PyVal.vStr "X")]]))
        (normalize_field_name "company_name") = some a →
      dictGet (match_requested_fields [[("Company Name", PyVal.vStr "X")]]
        ["company_name"]).matched_fields "company_name" = some a) ∧
    (dictGet (buildNTA [] (sortedFieldSet [[("Company Name", PyVal.vStr "X")]]))
        (normalize_field_name "company_name") = none →
      dictGet (match_requested_fields [[("Company Name", PyVal.vStr "X")]]
        ["company_name"]).matched_fields "company_name" =
        ((buildNTA [] (sortedFieldSet [[("Company Name", PyVal.vStr "X")]])).find?
          (partialMatchPred (normalize_field_name "company_name"))).map Prod.snd) ∧
    (∀ p ∈ buildNTA [] (sortedFieldSet [[("Company Name", PyVal.vStr "X")]]),
      normalize_field_name p.2 = p.1 ∧
      p.2 ∈ sortedFieldSet [[("Company Name", PyVal.vStr "X")]] ∧
      ∀ f ∈ sortedFieldSet [[("Company Name", PyVal.vStr "X")]],
        normalize_field_name f = p.1 → p.2.length ≤ f.length) :=
  claim_C6_field_matching [[("Company Name", PyVal.vStr "X")]] ["company_name"]
    "company_name" (by decide) (by decide)

end Wdsp
